import Mathlib

/-!
# Verification of the ZeroTier `Identity` primitive (node/Identity.cpp)

A shallow embedding of `node/Identity.cpp`.  Bytes are `Nat` values (< 256 in
well-formed data), buffers are `List Nat` or `Array Nat`, and 64-bit machine
words are `Nat` with explicit `% 2^64` where overflow matters.  The external
cryptographic primitives (SHA-384/512, Salsa20, Speck128, Curve25519, P-384)
and the base32 codec are out of scope per the specification; they are passed
in as a `Crypto` parameter record, so every theorem quantifies over them.
-/

namespace ZeroTier

/-- Big-endian interpretation of a byte list as a natural number. -/
def beBytesToNat (l : List Nat) : Nat := l.foldl (fun a b => a * 256 + b) 0

/-- Render `v` as `n` big-endian bytes (most significant first). -/
def natToBeBytes : Nat → Nat → List Nat
  | 0, _ => []
  | n + 1, v => natToBeBytes n (v / 256) ++ [v % 256]

/-- Little-endian interpretation of a byte list as a natural number. -/
def leBytesToNat (l : List Nat) : Nat := l.foldr (fun b a => a * 256 + b) 0

/-- The eight little-endian bytes of a 64-bit word. -/
def leWordBytes (w : Nat) : List Nat := (List.range 8).map (fun k => w / 256 ^ k % 256)

/-- A byte buffer, split into 64-bit little-endian words. -/
def bytesToLeWords : List Nat → List Nat
  | [] => []
  | a :: rest => leBytesToNat ((a :: rest).take 8) :: bytesToLeWords (rest.drop 7)
  termination_by l => l.length
  decreasing_by
    simp only [List.length_cons, List.length_drop]
    omega

/-- Flatten a word list back into little-endian bytes. -/
def leWordsToBytes (ws : List Nat) : List Nat := ws.flatMap leWordBytes

/-- The external cryptographic primitives and codecs consumed by
`Identity.cpp`.  The spec places them out of scope ("assumed to exist with
conventional semantics"), so the whole development is parameterised over
them.  `salsa key iv pos block` models one 64-byte `crypt20` call at stream
position `pos` (in 64-byte blocks) of the cipher keyed by `key`/`iv`;
`speck kx ky x y` models one Speck128-24 block encryption under the 128-bit
key `(kx, ky)` set by `initXY`. -/
structure Crypto where
  sha512 : List Nat → List Nat
  sha384 : List Nat → List Nat
  salsa : List Nat → List Nat → Nat → List Nat → List Nat
  speck : Nat → Nat → Nat → Nat → Nat × Nat
  c25519Agree : List Nat → List Nat → List Nat
  ecc384Ecdh : List Nat → List Nat → List Nat
  b32e : List Nat → List Char
  b32d : List Char → Option (List Nat)

/-- Modelled from the spec: a fingerprint is `{ address : u40, hash : [u8;48] }`
(`Fingerprint.hpp` is not part of the sources). -/
structure Fingerprint where
  address : Nat
  hash : List Nat
  deriving DecidableEq, Repr

/-- Modelled from the spec: the zeroed fingerprint (`_fp.zero()`). -/
def Fingerprint.zeroed : Fingerprint := ⟨0, List.replicate 48 0⟩

/-- Modelled from the spec: an identity holds a type tag, the address, the
public material (the V1 compound public is `nonce ‖ c25519_pub ‖ p384_pub`,
with the C25519 slot shared with V0), the optional private material, and the
fingerprint (`Identity.hpp` is not part of the sources).  The type tag is kept
as a raw byte, as the C++ enum cast `(Type)data[ZT_ADDRESS_LENGTH]` does:
`0 = C25519 (V0)`, `1 = P384 (V1)`. -/
structure Identity where
  address : Nat
  type : Nat
  pubNonce : Nat
  pubC25519 : List Nat
  pubP384 : List Nat
  privC25519 : List Nat
  privP384 : List Nat
  hasPrivate : Bool
  fp : Fingerprint
  deriving DecidableEq, Repr

/-- Modelled from the spec: `Address.isReserved` — the reserved set is
`{0}` together with every address whose leading byte is `0xFF`
(addresses are 40-bit, so the leading byte is `a / 2^32`). -/
def isReserved (a : Nat) : Bool := a == 0 || a / 2 ^ 32 == 255

/-- Modelled from the spec: constructing an `Address` from a `uint64_t`
keeps the low 40 bits. -/
def addrOfU64 (v : Nat) : Nat := v % 2 ^ 40

/-- The V1 compound public block `nonce(1) ‖ c25519_pub(64) ‖ p384_pub(49)`,
exactly the byte image of `_pub` that is hashed for the fingerprint and PoW. -/
def Identity.v1PubBytes (id : Identity) : List Nat :=
  id.pubNonce :: (id.pubC25519 ++ id.pubP384)

/-- The V1 compound private block `c25519_priv(64) ‖ p384_priv(48)`,
the byte image of `_priv`. -/
def Identity.v1PrivBytes (id : Identity) : List Nat :=
  id.privC25519 ++ id.privP384

/-! ## V0 proof of work ("frankenhash", Identity.cpp:31-75) -/

/-- Byte `off + k` (k < 8) of an `Array Nat` buffer, big-endian assembled:
`Utils::ntoh(((uint64_t *)genmem)[i])` reads the eight memory bytes at
offset `8*i` in network (big-endian) order. -/
def beWordAt (g : Array Nat) (off : Nat) : Nat :=
  (List.range 8).foldl (fun a k => a * 256 + g.getD (off + k) 0) 0

/-- The eight bytes of 64-bit word number `w` of a byte buffer. -/
def readChunk (g : Array Nat) (off : Nat) : List Nat :=
  (List.range 8).map (fun k => g.getD (off + k) 0)

/-- Overwrite the eight bytes at `off` with chunk `c`. -/
def writeChunk (g : Array Nat) (off : Nat) (c : List Nat) : Array Nat :=
  (List.range 8).foldl
    (fun g2 k => if h : off + k < g2.size then g2.set ⟨off + k, h⟩ (c.getD k 0) else g2) g

/-- Block `i` of the sequential Salsa20 fill of `genmem`
(Identity.cpp:39-53): block 0 encrypts 64 zero bytes, block `i+1` copies
block `i` and encrypts it in place, the keystream advancing one 64-byte
block per step. -/
def frankenhashFillBlock (C : Crypto) (key iv : List Nat) : Nat → List Nat
  | 0 => C.salsa key iv 0 (List.replicate 64 0)
  | i + 1 => C.salsa key iv (i + 1) (frankenhashFillBlock C key iv i)

/-- The filled 2 MiB `genmem` buffer as bytes. -/
def frankenhashGenmem (C : Crypto) (key iv : List Nat) : Array Nat :=
  (((List.range 32768).map (frankenhashFillBlock C key iv)).flatten).toArray

/-- One step of the mixing phase (Identity.cpp:56-63): step `j` consumes
genmem words `2*j` and `2*j + 1` (byte offsets `16*j` and `16*j + 8`) to
derive the two swap indices, swaps genmem word `idx2` with digest word
`idx1`, and re-encrypts the 64-byte digest with the continuing Salsa20
stream (the fill already consumed 32768 keystream blocks). -/
def frankenhashMixStep (C : Crypto) (key iv : List Nat) (j : Nat)
    (st : Array Nat × List Nat) : Array Nat × List Nat :=
  let g := st.1
  let d := st.2
  let idx1 := beWordAt g (16 * j) % 8
  let idx2 := beWordAt g (16 * j + 8) % 262144
  let tmp := readChunk g (8 * idx2)
  let g2 := writeChunk g (8 * idx2) ((d.drop (8 * idx1)).take 8)
  let d2 := d.take (8 * idx1) ++ tmp ++ d.drop (8 * idx1 + 8)
  (g2, C.salsa key iv (32768 + j) d2)

/-- The mixing loop of Identity.cpp:56-63, as the source's while loop:
`fuel` remaining steps, `j` the current step index. -/
def frankenhashMixLoop (C : Crypto) (key iv : List Nat) :
    Nat → Nat → Array Nat × List Nat → Array Nat × List Nat
  | 0, _, st => st
  | fuel + 1, j, st =>
      frankenhashMixLoop C key iv fuel (j + 1) (frankenhashMixStep C key iv j st)

/-- `identityV0ProofOfWorkFrankenhash` (Identity.cpp:31-64): SHA-512 the
public key, key Salsa20 with `digest[0..32]` / nonce `digest[32..40]`, fill
2 MiB sequentially, then run the 131072-step mixing phase (262144 genmem
words, two per step) and return the final 64-byte digest. -/
def frankenhash (C : Crypto) (publicKey : List Nat) : List Nat :=
  let d0 := C.sha512 publicKey
  let key := d0.take 32
  let iv := (d0.drop 32).take 8
  (frankenhashMixLoop C key iv 131072 0 (frankenhashGenmem C key iv, d0)).2

/-- `identityV0ProofOfWorkCriteria` (Identity.cpp:65-75): accept iff the
first digest byte is below 17. -/
def identityV0ProofOfWorkCriteria (C : Crypto) (pub : List Nat) : Bool :=
  decide ((frankenhash C pub).headD 0 < 17)

/-- The candidate V0 address: `_address.setTo(digest + 59)` in
`Identity::generate` and `Address(digest + 59)` in `locallyValidate` — the
five digest bytes 59..63, big-endian. -/
def v0AddressOf (digest : List Nat) : Nat :=
  beBytesToNat ((digest.drop 59).take 5)

/-! ## V1 proof of work (Identity.cpp:82-171) -/

/-- One iteration of the V1 fill-and-mix loop (Identity.cpp:105-139) on the
word buffer: load the eight words at `i`, mix across blocks with wrapping
64-bit adds, encrypt the four 128-bit blocks with Speck128-24 under key
`(k4, k5)`, and store them at `i + 8`. -/
def v1FillStep (C : Crypto) (k4 k5 i : Nat) (b : Array Nat) : Array Nat :=
  let x0 := b.getD i 0
  let y0 := b.getD (i + 1) 0
  let x1 := b.getD (i + 2) 0
  let y1 := b.getD (i + 3) 0
  let x2 := b.getD (i + 4) 0
  let y2 := b.getD (i + 5) 0
  let x3 := b.getD (i + 6) 0
  let y3 := b.getD (i + 7) 0
  let x0 := (x0 + x1) % 2 ^ 64
  let x1 := (x1 + x2) % 2 ^ 64
  let x2 := (x2 + x3) % 2 ^ 64
  let x3 := (x3 + y0) % 2 ^ 64
  let p0 := C.speck k4 k5 x0 y0
  let p1 := C.speck k4 k5 x1 y1
  let p2 := C.speck k4 k5 x2 y2
  let p3 := C.speck k4 k5 x3 y3
  let vals := [p0.1, p0.2, p1.1, p1.2, p2.1, p2.2, p3.1, p3.2]
  (List.range 8).foldl
    (fun b2 k => if h : i + 8 + k < b2.size then b2.set ⟨i + 8 + k, h⟩ (vals.getD k 0) else b2) b

/-- The V1 fill loop: `for (i = 0; i < 98304 - 8; )` advancing `i` by 8 each
iteration — 12287 steps. -/
def v1FillLoop (C : Crypto) (k4 k5 : Nat) : Nat → Nat → Array Nat → Array Nat
  | 0, _, b => b
  | fuel + 1, i, b => v1FillLoop C k4 k5 fuel (i + 8) (v1FillStep C k4 k5 i b)

/-- The final-digest step of `identityV1ProofOfWorkCriteria`
(Identity.cpp:160-161): `SHA384(b, b, sizeof(b), in, len)`.  `b` is a
function parameter of pointer type `uint64_t *const`, so `sizeof(b)` is the
size of the pointer — 8 bytes on the 64-bit targets — not the size of the
98,304-word buffer: only the first 8 bytes of the sorted buffer enter the
final hash. -/
def v1FinalDigest (C : Crypto) (bBytes input : List Nat) : List Nat :=
  C.sha384 (bBytes.take 8 ++ input)

/-- `identityV1ProofOfWorkCriteria` (Identity.cpp:82-171): SHA-512 the input
into the first eight little-endian words of `b`, key Speck128-24 from
`(b[4], b[5])`, run the fill-and-mix loop, sort the whole word array
ascending, compute the final digest (see `v1FinalDigest`), write it into the
first 48 bytes of `b`, and pass iff the wrapping 64-bit sum of `b[0]` and
`b[1]` (little-endian) is divisible by 180.  The buffer comes from `malloc`;
every word beyond the SHA-512 prefix is written before it is read, so
modelling the junk as zeros is sound. -/
def identityV1ProofOfWorkCriteria (C : Crypto) (input : List Nat) : Bool :=
  let h := bytesToLeWords (C.sha512 input)
  let b0 : Array Nat := ((List.range 98304).map (fun i => h.getD i 0)).toArray
  let b1 := v1FillLoop C (h.getD 4 0) (h.getD 5 0) 12287 0 b0
  let sorted := b1.toList.mergeSort (fun a b => decide (a ≤ b))
  let final := v1FinalDigest C (leWordsToBytes sorted) input
  let w0 := leBytesToNat (final.take 8)
  let w1 := leBytesToNat ((final.drop 8).take 8)
  ((w0 + w1) % 2 ^ 64) % 180 == 0

/-! ## Identity operations -/

/-- `Identity::_computeHash` (Identity.cpp:604-621). -/
def Identity.computeHash (C : Crypto) (id : Identity) : Identity :=
  if id.type = 0 then
    { id with fp := ⟨id.address, C.sha384 id.pubC25519⟩ }
  else if id.type = 1 then
    { id with fp := ⟨id.address, C.sha384 id.v1PubBytes⟩ }
  else
    { id with fp := Fingerprint.zeroed }

/-- `Identity::marshal` (Identity.cpp:513-543).  Returns the marshalled byte
image, or `none` for an invalid type tag (the source returns `-1`).  The wire
layout is `address[5] | type[1] | public_block | priv_len[1] | [private]`. -/
def Identity.marshal (id : Identity) (includePrivate : Bool) : Option (List Nat) :=
  let addrB := natToBeBytes 5 id.address
  if id.type = 0 then
    if includePrivate && id.hasPrivate then
      some (addrB ++ 0 :: id.pubC25519 ++ 64 :: id.privC25519)
    else
      some (addrB ++ 0 :: id.pubC25519 ++ [0])
  else if id.type = 1 then
    if includePrivate && id.hasPrivate then
      some (addrB ++ 1 :: id.v1PubBytes ++ 112 :: (id.privC25519 ++ id.privP384))
    else
      some (addrB ++ 1 :: id.v1PubBytes ++ [0])
  else
    none

/-- `Identity::unmarshal` (Identity.cpp:545-602), as a function of the
previous object state (fields the source never writes keep their prior
values) and the input bytes.  Returns the updated state and the C return
value (`-1` on rejection, the number of bytes consumed on success). -/
def Identity.unmarshal (C : Crypto) (prev : Identity) (data : List Nat) :
    Identity × Int :=
  let id0 := { prev with fp := Fingerprint.zeroed, hasPrivate := false }
  if data.length < 6 then (id0, -1) else
  let id1 := { id0 with address := beBytesToNat (data.take 5),
                        type := (data.drop 5).headD 0 }
  if id1.type = 0 then
    if data.length < 71 then (id1, -1) else
    let id2 := Identity.computeHash C { id1 with pubC25519 := (data.drop 6).take 64 }
    let privlen := (data.drop 70).headD 0
    if privlen = 64 then
      if data.length < 135 then (id2, -1) else
      ({ id2 with hasPrivate := true, privC25519 := (data.drop 71).take 64 }, 135)
    else if privlen = 0 then
      (id2, 71)
    else (id2, -1)
  else if id1.type = 1 then
    if data.length < 121 then (id1, -1) else
    let id2 := Identity.computeHash C
      { id1 with pubNonce := (data.drop 6).headD 0,
                 pubC25519 := (data.drop 7).take 64,
                 pubP384 := (data.drop 71).take 49 }
    if id2.address ≠ beBytesToNat (id2.fp.hash.take 5) then (id2, -1) else
    let privlen := (data.drop 120).headD 0
    if privlen = 112 then
      if data.length < 233 then (id2, -1) else
      ({ id2 with hasPrivate := true, privC25519 := (data.drop 121).take 64,
                  privP384 := (data.drop 185).take 48 }, 233)
    else if privlen = 0 then
      (id2, 121)
    else (id2, -1)
  else (id1, -1)

/-- `Identity::locallyValidate` (Identity.cpp:231-260).  The `try/catch`
and the V1 scratch-allocation failure path (both returning `false` only on
resource exhaustion) are not modelled: allocation always succeeds here. -/
def Identity.locallyValidate (C : Crypto) (id : Identity) : Bool :=
  if !(isReserved id.address) && id.address != 0 then
    if id.type = 0 then
      let digest := frankenhash C id.pubC25519
      (id.address == v0AddressOf digest) && decide (digest.headD 0 < 17)
    else if id.type = 1 then
      if id.address != beBytesToNat (id.fp.hash.take 5) then false
      else identityV1ProofOfWorkCriteria C id.v1PubBytes
    else false
  else false

/-- `Identity::sign` (Identity.cpp:281-303), return value only (the
signature bytes are produced by the external primitives).  Modelled from the
spec where the constants live outside the sources:
`ZT_C25519_SIGNATURE_LEN = ZT_ECC384_SIGNATURE_SIZE = 96`.  The source's
`case C25519` has no `break`, so an undersized V0 call falls through into
the `case P384` test — which re-checks the same 96-byte bound and fails
again, hence the duplicated inner conditional. -/
def Identity.sign (id : Identity) (siglen : Nat) : Nat :=
  if id.hasPrivate then
    if id.type = 0 then
      if 96 ≤ siglen then 96
      else if 96 ≤ siglen then 96 else 0
    else if id.type = 1 then
      if 96 ≤ siglen then 96 else 0
    else 0
  else 0

/-- `Identity::agree` (Identity.cpp:324-364): `none` models the `false`
return, `some key` the 48-byte shared secret
(`ZT_PEER_SECRET_KEY_LENGTH = 48`, from the spec).  V0 with V0 or V1, and V1
with V0, use only the C25519 halves (X25519 then SHA-512 truncated to 48
bytes); V1 with V1 concatenates the X25519 and P-384 ECDH secrets and
SHA-384s them. -/
def Identity.agree (C : Crypto) (self other : Identity) : Option (List Nat) :=
  if self.hasPrivate then
    if self.type = 0 then
      if other.type = 0 || other.type = 1 then
        some ((C.sha512 (C.c25519Agree self.privC25519 other.pubC25519)).take 48)
      else none
    else if self.type = 1 then
      if other.type = 1 then
        some ((C.sha384 (C.c25519Agree self.privC25519 other.pubC25519 ++
          C.ecc384Ecdh other.pubP384 self.privP384)).take 48)
      else if other.type = 0 then
        some ((C.sha512 (C.c25519Agree self.privC25519 other.pubC25519)).take 48)
      else none
    else none
  else none

/-- Modelled from the spec: the public-only copy of an identity
(`A.agree(B.public_only)` in the spec's agreement-symmetry property). -/
def Identity.publicOnly (id : Identity) : Identity :=
  { id with hasPrivate := false }

/-! ## Text codec (Identity.cpp:366-511)

`Utils::hex`, `Utils::unhex`, `Utils::hexStrToU64` and `Utils::stok` live
outside the sources; they are modelled from the spec ("hex/base32 codecs and
string tokenization ... assumed to exist with conventional semantics"). -/

/-- Modelled from the spec: one lowercase hex digit. -/
def hexDigitChar (d : Nat) : Char :=
  Char.ofNat (if d < 10 then 48 + d else 87 + d)

/-- Modelled from the spec: `Utils::hex` — lowercase hex of a byte string,
two digits per byte, most significant nibble first. -/
def hexChars (bs : List Nat) : List Char :=
  bs.flatMap (fun b => [hexDigitChar (b / 16), hexDigitChar (b % 16)])

/-- Modelled from the spec: the value of one hex digit (both cases),
`none` on a non-hex character. -/
def hexVal (c : Char) : Option Nat :=
  if 48 ≤ c.toNat ∧ c.toNat ≤ 57 then some (c.toNat - 48)
  else if 97 ≤ c.toNat ∧ c.toNat ≤ 102 then some (c.toNat - 87)
  else if 65 ≤ c.toNat ∧ c.toNat ≤ 70 then some (c.toNat - 55)
  else none

/-- Modelled from the spec: `Utils::unhex` — decode a whole token as hex
byte pairs; `Identity::fromString` then requires the decoded length to be
exactly the key size. -/
def unhex : List Char → Option (List Nat)
  | [] => some []
  | [_] => none
  | c1 :: c2 :: rest =>
    match hexVal c1, hexVal c2, unhex rest with
    | some h, some l, some bs => some ((h * 16 + l) :: bs)
    | _, _, _ => none

/-- Modelled from the spec: `Utils::hexStrToU64` — fold leading hex digits
into a 64-bit accumulator, stopping at the first non-hex character. -/
def hexStrToU64Aux : List Char → Nat → Nat
  | [], acc => acc
  | c :: rest, acc =>
    match hexVal c with
    | some d => hexStrToU64Aux rest ((acc * 16 + d) % 2 ^ 64)
    | none => acc

/-- Modelled from the spec: `Utils::hexStrToU64` on a whole token. -/
def hexStrToU64 (cs : List Char) : Nat := hexStrToU64Aux cs 0

/-- Modelled from the spec: `Address::toString` — exactly 10 lowercase hex
characters, most significant byte first. -/
def addrHexChars (a : Nat) : List Char := hexChars (natToBeBytes 5 a)

/-- `Identity::toString` (Identity.cpp:366-408) as the produced character
list `address:type:public[:private]`.  The buffer-capacity failure paths
(`nullptr` when `Utils::b32e` reports the fixed
`ZT_IDENTITY_STRING_BUFFER_LENGTH` buffer too small) are not modelled: the
buffer constant is sized for the maximum identity. -/
def Identity.toStringChars (C : Crypto) (id : Identity) (includePrivate : Bool) :
    List Char :=
  let a := addrHexChars id.address
  if id.type = 0 then
    a ++ ':' :: '0' :: ':' :: (hexChars id.pubC25519 ++
      (if includePrivate && id.hasPrivate then ':' :: hexChars id.privC25519 else []))
  else if id.type = 1 then
    a ++ ':' :: '1' :: ':' :: (C.b32e id.v1PubBytes ++
      (if includePrivate && id.hasPrivate then ':' :: C.b32e id.v1PrivBytes else []))
  else []

/-- The worker for `stok`: `acc` holds the current token's characters in
reverse. -/
def stokAux : List Char → List Char → List (List Char)
  | [], acc => if acc.isEmpty then [] else [acc.reverse]
  | c :: rest, acc =>
    if c = ':' then
      if acc.isEmpty then stokAux rest [] else acc.reverse :: stokAux rest []
    else stokAux rest (c :: acc)

/-- Modelled from the spec: `Utils::stok` with delimiter `":"` — `strtok_r`
semantics: runs of delimiters separate tokens, so empty tokens never occur
and leading/trailing delimiters are skipped. -/
def stok (s : List Char) : List (List Char) := stokAux s []

/-- The epilogue of `Identity::fromString` (Identity.cpp:504-510): compute
the hash, and for P384 require the address to match the first five
fingerprint-hash bytes (zeroing only the address on mismatch). -/
def Identity.finishFromString (C : Crypto) (id : Identity) : Identity × Bool :=
  if (Identity.computeHash C id).type = 1 ∧
      (Identity.computeHash C id).address ≠
        beBytesToNat ((Identity.computeHash C id).fp.hash.take 5) then
    ({ Identity.computeHash C id with address := 0 }, false)
  else (Identity.computeHash C id, true)

/-- The field loop of `Identity::fromString` (Identity.cpp:426-502) over the
already-tokenized fields (at most four are consumed; later tokens are
ignored).  Fields the source never writes keep their values from `prev`. -/
def Identity.fromStringToks (C : Crypto) (prev : Identity)
    (toks : List (List Char)) : Identity × Bool :=
  let id0 := { prev with fp := Fingerprint.zeroed, hasPrivate := false }
  match toks with
  | [] => ({ id0 with address := 0 }, false)
  | t0 :: rest0 =>
    let a := addrOfU64 (hexStrToU64 t0)
    if isReserved a then ({ id0 with address := 0 }, false) else
    let id1 := { id0 with address := a }
    match rest0 with
    | [] => ({ id1 with address := 0 }, false)
    | t1 :: rest1 =>
      if t1 ≠ ['0'] ∧ t1 ≠ ['1'] then ({ id1 with address := 0 }, false) else
      let id2 := { id1 with type := if t1 = ['0'] then 0 else 1 }
      match rest1 with
      | [] => ({ id2 with address := 0 }, false)
      | t2 :: rest2 =>
        let pubDec : Option Identity :=
          if id2.type = 0 then
            match unhex t2 with
            | some bs => if bs.length = 64 then some { id2 with pubC25519 := bs } else none
            | none => none
          else
            match C.b32d t2 with
            | some bs =>
                if bs.length = 114 then
                  some { id2 with pubNonce := bs.headD 0,
                                  pubC25519 := (bs.drop 1).take 64,
                                  pubP384 := (bs.drop 65).take 49 }
                else none
            | none => none
        match pubDec with
        | none => ({ id2 with address := 0 }, false)
        | some id3 =>
          match rest2 with
          | [] => Identity.finishFromString C id3
          | t3 :: _ =>
            if t3.length > 1 then
              let privDec : Option Identity :=
                if id3.type = 0 then
                  match unhex t3 with
                  | some bs =>
                      if bs.length = 64 then
                        some { id3 with privC25519 := bs, hasPrivate := true }
                      else none
                  | none => none
                else
                  match C.b32d t3 with
                  | some bs =>
                      if bs.length = 112 then
                        some { id3 with privC25519 := bs.take 64,
                                        privP384 := (bs.drop 64).take 48,
                                        hasPrivate := true }
                      else none
                  | none => none
              match privDec with
              | none => ({ id3 with address := 0 }, false)
              | some id4 => Identity.finishFromString C id4
            else Identity.finishFromString C id3

/-- `Identity::fromString` (Identity.cpp:410-511).  The `nullptr`-input and
`Utils::scopy`-overflow branches (fixed-buffer concerns) are not modelled. -/
def Identity.fromString (C : Crypto) (prev : Identity) (s : List Char) :
    Identity × Bool :=
  Identity.fromStringToks C prev (stok s)

/-! ## Spec-side definitions

Each `spec`/`c`-prefixed definition below transcribes the words of a claim
or spec sentence, to be compared with the definition taken from the source. -/

/-- The final-digest step as the spec (§4.2 step 6) and the source's own
comment state it: SHA-384 over the *entire* sorted buffer concatenated with
the input bytes.  Modelled from the spec:
`final = SHA-384(B as bytes ‖ input bytes)`. -/
def v1FinalDigestSpec (C : Crypto) (bBytes input : List Nat) : List Nat :=
  C.sha384 (bBytes ++ input)

/-- One step of the V0 mixing phase as the spec states it (§4.1 step 5):
`idx1 = ntoh(G[i++]) mod (64 / 8)`, `idx2 = ntoh(G[i++]) mod (|G| / 8)`,
swap `G[idx2]` with `digest[idx1]` (eight 64-bit words), then encrypt the
digest with the continuing keystream. -/
def specV0MixStep (C : Crypto) (key iv : List Nat)
    (st : Array Nat × List Nat) (j : Nat) : Array Nat × List Nat :=
  let g := st.1
  let d := st.2
  let idx1 := beWordAt g (8 * (2 * j)) % (64 / 8)
  let idx2 := beWordAt g (8 * (2 * j + 1)) % (2097152 / 8)
  let gWord := readChunk g (8 * idx2)
  let dWord := (d.drop (8 * idx1)).take 8
  let g2 := writeChunk g (8 * idx2) dWord
  let d2 := d.take (8 * idx1) ++ gWord ++ d.drop (8 * idx1 + 8)
  (g2, C.salsa key iv (32768 + j) d2)

/-- The whole V0 mixing phase as the spec states it: a fold of the step over
the `|G| / 16` step indices in order. -/
def specV0MixPhase (C : Crypto) (key iv : List Nat)
    (st : Array Nat × List Nat) : Array Nat × List Nat :=
  (List.range (2097152 / 16)).foldl (specV0MixStep C key iv) st

/-- The V0 candidate address as the claim states it: digest bytes 59..63
(the last five bytes of the 64-byte digest). -/
def specV0Address (d : List Nat) : Nat := beBytesToNat ((d.take 64).drop 59)

/-- `locallyValidate` as claim C2 states it: false when the address is zero
or reserved; for V0, true iff the address equals bytes 59..63 of the
recomputed `pow_v0` digest of the C25519 public key and that digest's first
byte is below 17; for V1, true iff the address equals the first five bytes
of the fingerprint hash and `pow_v1` of the compound public block passes.
(Types outside {0, 1} cannot occur in the spec's data model; they validate
as false, matching the exhaustive switch falling through.) -/
def c2SpecValidate (C : Crypto) (id : Identity) : Bool :=
  if id.address = 0 ∨ isReserved id.address then false
  else if id.type = 0 then
    let digest := frankenhash C id.pubC25519
    (id.address == specV0Address digest) && decide (digest.headD 0 < 17)
  else if id.type = 1 then
    (id.address == beBytesToNat (id.fp.hash.take 5)) &&
      identityV1ProofOfWorkCriteria C id.v1PubBytes
  else false

/-- The rejection condition of `unmarshal` as claim C5 states it: unknown
type byte, truncation relative to the type and declared private length,
a private-length byte outside the legal set for the type, or a V1 record
whose wire address does not match the first five bytes of SHA-384 of the
public block. -/
def c5Rejects (C : Crypto) (data : List Nat) : Bool :=
  let len := data.length
  let t := (data.drop 5).headD 0
  let pl0 := (data.drop 70).headD 0
  let pl1 := (data.drop 120).headD 0
  let unknownType := 6 ≤ len && !(t == 0 || t == 1)
  let truncated :=
    decide (len < 6) ||
    (t == 0 && decide (len < 71)) ||
    (t == 1 && decide (len < 121)) ||
    (t == 0 && decide (71 ≤ len) && pl0 == 64 && decide (len < 135)) ||
    (t == 1 && decide (121 ≤ len) && pl1 == 112 && decide (len < 233))
  let badPrivLen :=
    (t == 0 && decide (71 ≤ len) && !(pl0 == 0 || pl0 == 64)) ||
    (t == 1 && decide (121 ≤ len) && !(pl1 == 0 || pl1 == 112))
  let v1Mismatch :=
    t == 1 && decide (121 ≤ len) &&
      !(beBytesToNat (data.take 5) ==
        beBytesToNat ((C.sha384 ((data.drop 6).take 114)).take 5))
  unknownType || truncated || badPrivLen || v1Mismatch

/-- Modelled from the spec: identity equality on the public part — type,
address, fingerprint, and the public material used by the type
(`Identity::operator==` lives in the header, outside the sources). -/
def Identity.eqPub (J I : Identity) : Bool :=
  J.type == I.type && J.address == I.address &&
  decide (J.fp = I.fp) &&
  (if I.type = 0 then decide (J.pubC25519 = I.pubC25519)
   else if I.type = 1 then
     J.pubNonce == I.pubNonce && decide (J.pubC25519 = I.pubC25519) &&
       decide (J.pubP384 = I.pubP384)
   else true)

/-- Modelled from the spec: full identity equality — the public part plus
the private flag and, when a private half is held, the private material used
by the type. -/
def Identity.eqFull (J I : Identity) : Bool :=
  Identity.eqPub J I && J.hasPrivate == I.hasPrivate &&
  (!I.hasPrivate || (decide (J.privC25519 = I.privC25519) &&
    (I.type != 1 || decide (J.privP384 = I.privP384))))

/-- The round-trip result claim C4 asks for: with `includePrivate = true`
the decoded identity is fully equal; with `false` it is equal except for the
private half, which is absent. -/
def roundTripEq (b : Bool) (J I : Identity) : Bool :=
  if b then Identity.eqFull J I else Identity.eqPub J I && !J.hasPrivate

/-- The shape invariants every validly generated identity satisfies
(spec §3 "Invariants" and §4.3): in-range non-reserved nonzero address,
byte-valued key material of the fixed sizes, and a fingerprint consistent
with the public material (for V1 the address is the first five fingerprint
bytes). -/
def wellFormed (C : Crypto) (I : Identity) : Prop :=
  I.address < 2 ^ 40 ∧ I.address ≠ 0 ∧ isReserved I.address = false ∧
  I.pubC25519.length = 64 ∧ (∀ x ∈ I.pubC25519, x < 256) ∧
  I.privC25519.length = 64 ∧ (∀ x ∈ I.privC25519, x < 256) ∧
  I.fp.address = I.address ∧
  (if I.type = 0 then I.fp.hash = C.sha384 I.pubC25519
   else if I.type = 1 then
     I.pubNonce < 256 ∧ I.pubP384.length = 49 ∧ (∀ x ∈ I.pubP384, x < 256) ∧
     I.privP384.length = 48 ∧ (∀ x ∈ I.privP384, x < 256) ∧
     I.fp.hash = C.sha384 I.v1PubBytes ∧
     I.address = beBytesToNat (I.fp.hash.take 5)
   else False)

instance (C : Crypto) (I : Identity) : Decidable (wellFormed C I) := by
  unfold wellFormed
  infer_instance

/-! ## Claim C2 -/

/-- C2: `locallyValidate` returns false whenever the address is zero or
reserved; otherwise, a V0 identity validates iff its address equals bytes
59..63 of the recomputed `pow_v0` digest of the C25519 public key and that
digest's first byte is below 17, and a V1 identity validates iff its address
equals the first five bytes of the fingerprint hash and `pow_v1` of the
compound public block passes. -/
theorem locallyValidate_eq_spec (C : Crypto) (id : Identity) :
    Identity.locallyValidate C id = c2SpecValidate C id := by
  unfold Identity.locallyValidate c2SpecValidate
  by_cases h0 : id.address = 0
  · simp [isReserved, h0]
  · by_cases hr : isReserved id.address
    · simp [hr, h0]
    · have hv : v0AddressOf = specV0Address := by
        funext d
        unfold v0AddressOf specV0Address
        rw [List.drop_take]
      simp only [hv]
      by_cases ht0 : id.type = 0
      · simp [ht0, h0, hr]
      · by_cases ht1 : id.type = 1
        · cases hab : id.address == beBytesToNat (id.fp.hash.take 5)
          · simp_all
          · simp_all
        · simp [ht0, ht1, h0, hr]

/-! ## Claim C3 -/

theorem mixStep_eq_specStep (C : Crypto) (key iv : List Nat) (j : Nat)
    (st : Array Nat × List Nat) :
    frankenhashMixStep C key iv j st = specV0MixStep C key iv st j := by
  have h1 : 8 * (2 * j) = 16 * j := by ring
  have h2 : 8 * (2 * j + 1) = 16 * j + 8 := by ring
  simp [frankenhashMixStep, specV0MixStep, h1, h2]

theorem mixLoop_eq_fold (C : Crypto) (key iv : List Nat) :
    ∀ fuel j st, frankenhashMixLoop C key iv fuel j st =
      (List.range' j fuel).foldl (specV0MixStep C key iv) st := by
  intro fuel
  induction fuel with
  | zero => intro j st; simp [frankenhashMixLoop, List.range']
  | succ n ih =>
    intro j st
    rw [List.range'_succ, List.foldl_cons, ← ih, ← mixStep_eq_specStep]
    rfl

/-- C3: the V0 mixing phase of `identityV0ProofOfWorkFrankenhash` coincides
with the spec's description — for every starting state, the source's
two-words-per-step while loop over the 2 MiB buffer (network-byte-order
words, `idx1 = word mod 8`, `idx2 = word mod 262144`, swap scratch word
`idx2` with digest word `idx1`, re-encrypt the 64-byte digest each step)
equals the spec-side fold, `frankenhash` is exactly that phase run from the
filled buffer and initial digest, the acceptance criterion is
`digest[0] < 17`, and the candidate address is digest bytes 59..63. -/
theorem v0_mixing_phase_spec (C : Crypto) (key iv : List Nat)
    (st : Array Nat × List Nat) (pub d : List Nat) :
    frankenhashMixLoop C key iv 131072 0 st = specV0MixPhase C key iv st ∧
    frankenhash C pub =
      (specV0MixPhase C ((C.sha512 pub).take 32) (((C.sha512 pub).drop 32).take 8)
        (frankenhashGenmem C ((C.sha512 pub).take 32)
          (((C.sha512 pub).drop 32).take 8), C.sha512 pub)).2 ∧
    identityV0ProofOfWorkCriteria C pub =
      decide ((frankenhash C pub).headD 0 < 17) ∧
    v0AddressOf d = specV0Address d := by
  refine ⟨?_, ?_, rfl, ?_⟩
  · rw [mixLoop_eq_fold, specV0MixPhase, List.range_eq_range']
  · show (frankenhashMixLoop C ((C.sha512 pub).take 32)
      (((C.sha512 pub).drop 32).take 8) 131072 0 _).2 = _
    rw [mixLoop_eq_fold, specV0MixPhase, List.range_eq_range']
  · unfold v0AddressOf specV0Address
    rw [List.drop_take]

/-! ## Concrete instantiation for evaluating the development -/

/-- A concrete instantiation of the external primitives, used to run the
embedded code on explicit inputs: the hashes are simple length- and
position-sensitive functions, the ciphers are cheap permutations, and the
base32 codec shifts bytes into a private character range (so its output
never contains `':'`). -/
def trivCrypto : Crypto where
  sha512 := fun l => (List.range 64).map (fun k => (l.length + k) % 256)
  sha384 := fun l => (List.range 48).map (fun k => (l.length + k) % 256)
  salsa := fun _ _ pos block => block.map (fun b => (b + pos) % 256)
  speck := fun _ _ x y => (y, x)
  c25519Agree := fun p q => (p ++ q).take 32
  ecc384Ecdh := fun p q => (p ++ q).take 48
  b32e := fun bs => bs.map (fun b => Char.ofNat (b % 256 + 300))
  b32d := fun cs => some (cs.map (fun c => c.toNat - 300))

/-- The all-zero `NIL` identity (Identity.cpp:175). -/
def Identity.nil : Identity :=
  { address := 0, type := 0, pubNonce := 0,
    pubC25519 := List.replicate 64 0, pubP384 := List.replicate 49 0,
    privC25519 := List.replicate 64 0, privP384 := List.replicate 48 0,
    hasPrivate := false, fp := Fingerprint.zeroed }

theorem computeHash_address (C : Crypto) (id : Identity) :
    (Identity.computeHash C id).address = id.address := by
  unfold Identity.computeHash; split_ifs <;> rfl

theorem computeHash_type (C : Crypto) (id : Identity) :
    (Identity.computeHash C id).type = id.type := by
  unfold Identity.computeHash; split_ifs <;> rfl

theorem computeHash_hasPrivate (C : Crypto) (id : Identity) :
    (Identity.computeHash C id).hasPrivate = id.hasPrivate := by
  unfold Identity.computeHash; split_ifs <;> rfl

theorem computeHash_pubNonce (C : Crypto) (id : Identity) :
    (Identity.computeHash C id).pubNonce = id.pubNonce := by
  unfold Identity.computeHash; split_ifs <;> rfl

theorem computeHash_pubC25519 (C : Crypto) (id : Identity) :
    (Identity.computeHash C id).pubC25519 = id.pubC25519 := by
  unfold Identity.computeHash; split_ifs <;> rfl

theorem computeHash_pubP384 (C : Crypto) (id : Identity) :
    (Identity.computeHash C id).pubP384 = id.pubP384 := by
  unfold Identity.computeHash; split_ifs <;> rfl

theorem computeHash_privC25519 (C : Crypto) (id : Identity) :
    (Identity.computeHash C id).privC25519 = id.privC25519 := by
  unfold Identity.computeHash; split_ifs <;> rfl

theorem computeHash_privP384 (C : Crypto) (id : Identity) :
    (Identity.computeHash C id).privP384 = id.privP384 := by
  unfold Identity.computeHash; split_ifs <;> rfl

theorem computeHash_fp_type0 (C : Crypto) (id : Identity) (h : id.type = 0) :
    (Identity.computeHash C id).fp = ⟨id.address, C.sha384 id.pubC25519⟩ := by
  unfold Identity.computeHash; rw [if_pos h]

theorem computeHash_fp_type1 (C : Crypto) (id : Identity) (h : id.type = 1) :
    (Identity.computeHash C id).fp = ⟨id.address, C.sha384 id.v1PubBytes⟩ := by
  unfold Identity.computeHash
  rw [if_neg (by omega), if_pos h]

/-! ## Claim C1 -/

/-- C1 (code bug): the final-digest step of the V1 proof of work hashes only
the first 8 bytes of the sorted buffer — `sizeof(b)` at Identity.cpp:161 is
the size of the `uint64_t *const` pointer, not of the 786,432-byte buffer —
whereas the claim, the spec, and the source's own comment ("Hash resulting
sorted array") call for SHA-384 over the entire buffer followed by the input.
On the all-zero sorted buffer with empty input the two computations feed
SHA-384 different byte strings and produce different digests. -/
theorem c1_v1_final_digest_bug :
    v1FinalDigest trivCrypto (List.replicate 786432 0) [] ≠
      v1FinalDigestSpec trivCrypto (List.replicate 786432 0) [] := by
  have h1 : v1FinalDigest trivCrypto (List.replicate 786432 0) [] =
      (List.range 48).map
        (fun k => ((List.replicate (min 8 786432) (0 : Nat)).length + k) % 256) := by
    show trivCrypto.sha384 ((List.replicate 786432 0).take 8 ++ []) = _
    rw [List.take_replicate, List.append_nil]
    rfl
  have h2 : v1FinalDigestSpec trivCrypto (List.replicate 786432 0) [] =
      (List.range 48).map
        (fun k => ((List.replicate 786432 (0 : Nat)).length + k) % 256) := by
    show trivCrypto.sha384 (List.replicate 786432 0 ++ []) = _
    rw [List.append_nil]
    rfl
  rw [h1, h2, List.length_replicate, List.length_replicate]
  decide

/-! ## Claim C6 -/

theorem finishFromString_false_address (C : Crypto) (id : Identity) :
    (Identity.finishFromString C id).2 = false →
      (Identity.finishFromString C id).1.address = 0 := by
  unfold Identity.finishFromString
  split <;> simp

theorem fromStringToks_false_address (C : Crypto) (prev : Identity)
    (toks : List (List Char)) :
    (Identity.fromStringToks C prev toks).2 = false →
      (Identity.fromStringToks C prev toks).1.address = 0 := by
  intro h
  rcases hE : Identity.fromStringToks C prev toks with ⟨J, r⟩
  rw [hE] at h
  rcases toks with _ | ⟨t0, _ | ⟨t1, _ | ⟨t2, _ | ⟨t3, rest⟩⟩⟩⟩ <;>
    (unfold Identity.fromStringToks at hE; dsimp only at hE; repeat' split at hE)
  all_goals
    first
      | (cases hE; rfl)
      | (rw [← hE] at h ⊢; exact finishFromString_false_address _ _ h)

theorem unmarshal_error_hasPrivate (C : Crypto) (prev : Identity)
    (data : List Nat) :
    (Identity.unmarshal C prev data).2 < 0 →
      (Identity.unmarshal C prev data).1.hasPrivate = false := by
  intro h
  rcases hE : Identity.unmarshal C prev data with ⟨J, r⟩
  rw [hE] at h
  unfold Identity.unmarshal at hE
  dsimp only at hE
  repeat' split at hE
  all_goals cases hE
  all_goals
    first
      | rfl
      | (rw [computeHash_hasPrivate])
      | (exact absurd h (by norm_num))

/-- C6 claims every error path of `fromString` and `unmarshal` leaves the
empty state (address zero, no private half, fingerprint zero); `unmarshal`
refutes it: on `[1, 2, 3, 4, 5, 99]` (unknown type byte 99) it returns `-1`
with the parsed nonzero address still stored. -/
theorem c6_counterexample :
    (Identity.unmarshal trivCrypto Identity.nil [1, 2, 3, 4, 5, 99]).2 = -1 ∧
    (Identity.unmarshal trivCrypto Identity.nil [1, 2, 3, 4, 5, 99]).1.address ≠ 0 := by
  decide

/-- C6 (amended): every error path of `fromString` leaves the address zero,
and every error path of `unmarshal` leaves the private flag cleared; neither
parser restores the full empty state in general (`unmarshal` keeps the
parsed address, and paths reached after `_computeHash` keep the computed
fingerprint — `fromString`'s V1 mismatch path even keeps a decoded private
half). -/
theorem c6_error_state (C : Crypto) (prev : Identity) (s : List Char)
    (data : List Nat) :
    ((Identity.fromString C prev s).2 = false →
      (Identity.fromString C prev s).1.address = 0) ∧
    ((Identity.unmarshal C prev data).2 < 0 →
      (Identity.unmarshal C prev data).1.hasPrivate = false) :=
  ⟨fromStringToks_false_address C prev (stok s),
   unmarshal_error_hasPrivate C prev data⟩

theorem c6_error_state_witness :
    (Identity.fromString trivCrypto Identity.nil ['z']).2 = false ∧
    (Identity.fromString trivCrypto Identity.nil ['z']).1.address = 0 ∧
    (Identity.unmarshal trivCrypto Identity.nil []).2 < 0 ∧
    (Identity.unmarshal trivCrypto Identity.nil []).1.hasPrivate = false :=
  ⟨by decide,
   (c6_error_state trivCrypto Identity.nil ['z'] []).1 (by decide),
   by decide,
   (c6_error_state trivCrypto Identity.nil ['z'] []).2 (by decide)⟩

/-! ## Claim C7 -/

/-- A V0 wire record carrying the reserved address `0xFF00000000`:
five address bytes, type byte 0, a 64-byte public key, private length 0. -/
def c7ReservedRecord : List Nat :=
  255 :: 0 :: 0 :: 0 :: 0 :: 0 :: (List.replicate 64 0 ++ [0])

/-- C7 claims both parsers fail on inputs carrying a reserved address;
`unmarshal` refutes it: it performs no reservedness check, and on a V0
record whose address bytes decode to the reserved `0xFF00000000` it
succeeds (returns 71, not a negative failure) and stores the reserved
address. -/
theorem c7_counterexample :
    isReserved (beBytesToNat (c7ReservedRecord.take 5)) = true ∧
    (Identity.unmarshal trivCrypto Identity.nil c7ReservedRecord).2 = 71 ∧
    isReserved
      (Identity.unmarshal trivCrypto Identity.nil c7ReservedRecord).1.address = true := by
  decide

/-- C7 (amended): no identity accepted by `locallyValidate` has a reserved
address, and `fromString` fails whenever its first token parses to a
reserved address; `unmarshal`, however, does not check reservedness and
accepts such records, deferring the check to validation. -/
theorem c7_reserved_address (C : Crypto) (id prev : Identity)
    (t0 : List Char) (rest : List (List Char)) :
    (isReserved id.address = true → Identity.locallyValidate C id = false) ∧
    (isReserved (addrOfU64 (hexStrToU64 t0)) = true →
      (Identity.fromStringToks C prev (t0 :: rest)).2 = false) := by
  constructor
  · intro h
    unfold Identity.locallyValidate
    rw [h]
    rfl
  · intro h
    unfold Identity.fromStringToks
    dsimp only
    rw [if_pos h]

theorem c7_reserved_address_witness :
    isReserved Identity.nil.address = true ∧
    Identity.locallyValidate trivCrypto Identity.nil = false ∧
    isReserved (addrOfU64 (hexStrToU64 ['0'])) = true ∧
    (Identity.fromStringToks trivCrypto Identity.nil [['0']]).2 = false :=
  ⟨by decide,
   (c7_reserved_address trivCrypto Identity.nil Identity.nil ['0'] []).1 (by decide),
   by decide,
   (c7_reserved_address trivCrypto Identity.nil Identity.nil ['0'] []).2 (by decide)⟩

/-! ## Claim C8 -/

/-- C8: for every identity holding a private half (of either supported
type), `sign` returns 0 whenever the output buffer is smaller than the
96-byte signature size and returns 96 when the buffer suffices; in
particular a 95-byte buffer yields 0 and a 96-byte buffer yields 96.  (The
missing `break` after `case C25519` is harmless: the P384 arm re-checks the
same 96-byte bound.) -/
theorem c8_sign_buffer (id : Identity) (siglen : Nat)
    (hp : id.hasPrivate = true) (ht : id.type = 0 ∨ id.type = 1) :
    (siglen < 96 → Identity.sign id siglen = 0) ∧
    (96 ≤ siglen → Identity.sign id siglen = 96) ∧
    Identity.sign id 95 = 0 ∧ Identity.sign id 96 = 96 := by
  have key : ∀ n, Identity.sign id n = if 96 ≤ n then 96 else 0 := by
    intro n
    unfold Identity.sign
    rcases ht with h | h <;> simp [h, hp]
    intro h96
    rw [if_pos h96]
  exact ⟨fun hl => by rw [key, if_neg (by omega)],
         fun hg => by rw [key, if_pos hg],
         by rw [key]; norm_num,
         by rw [key]; norm_num⟩

theorem c8_sign_buffer_witness :
    ({ Identity.nil with hasPrivate := true } : Identity).hasPrivate = true ∧
    Identity.sign { Identity.nil with hasPrivate := true } 95 = 0 ∧
    Identity.sign { Identity.nil with hasPrivate := true } 96 = 96 :=
  ⟨by decide,
   (c8_sign_buffer { Identity.nil with hasPrivate := true } 95 (by decide)
      (Or.inl (by decide))).2.2.1,
   (c8_sign_buffer { Identity.nil with hasPrivate := true } 96 (by decide)
      (Or.inl (by decide))).2.2.2⟩

/-! ## Claim C9 -/

/-- C9: for identities `A`, `B` holding private halves with types in the
supported matrix, `A.agree(B.public_only)` and `B.agree(A.public_only)`
succeed and produce the same 48-byte key, given that the external DH
primitives are symmetric on these key pairs; in the mixed V0/V1 case the
key is derived from the C25519 halves only — X25519 then SHA-512 truncated
to 48 bytes. -/
theorem c9_agree_symmetry (C : Crypto) (A B : Identity)
    (hA : A.hasPrivate = true) (hB : B.hasPrivate = true)
    (htA : A.type = 0 ∨ A.type = 1) (htB : B.type = 0 ∨ B.type = 1)
    (hdh : C.c25519Agree A.privC25519 B.pubC25519 =
           C.c25519Agree B.privC25519 A.pubC25519)
    (hecdh : C.ecc384Ecdh B.pubP384 A.privP384 =
             C.ecc384Ecdh A.pubP384 B.privP384) :
    Identity.agree C A B.publicOnly = Identity.agree C B A.publicOnly ∧
    (Identity.agree C A B.publicOnly).isSome = true ∧
    (A.type ≠ B.type →
      Identity.agree C A B.publicOnly =
        some ((C.sha512 (C.c25519Agree A.privC25519 B.pubC25519)).take 48)) := by
  unfold Identity.agree Identity.publicOnly
  rcases htA with hA0 | hA1 <;> rcases htB with hB0 | hB1 <;>
    simp_all

theorem c9_agree_symmetry_witness :
    Identity.agree trivCrypto { Identity.nil with hasPrivate := true }
        ({ Identity.nil with hasPrivate := true, type := 1 } : Identity).publicOnly =
      Identity.agree trivCrypto { Identity.nil with hasPrivate := true, type := 1 }
        ({ Identity.nil with hasPrivate := true } : Identity).publicOnly ∧
    Identity.agree trivCrypto { Identity.nil with hasPrivate := true }
        ({ Identity.nil with hasPrivate := true, type := 1 } : Identity).publicOnly =
      some ((trivCrypto.sha512 (trivCrypto.c25519Agree
        (List.replicate 64 0) (List.replicate 64 0))).take 48) :=
  ⟨(c9_agree_symmetry trivCrypto _ _ (by decide) (by decide)
      (Or.inl (by decide)) (Or.inr (by decide)) (by decide) (by decide)).1,
   (c9_agree_symmetry trivCrypto _ _ (by decide) (by decide)
      (Or.inl (by decide)) (Or.inr (by decide)) (by decide) (by decide)).2.2
      (by decide)⟩

/-! ## Claim C5 -/

theorem take114_split (l : List Nat) (h : 114 ≤ l.length) :
    l.take 114 = l.headD 0 :: ((l.drop 1).take 64 ++ (l.drop 65).take 49) := by
  cases l with
  | nil => simp at h
  | cons a t =>
    rw [List.take_succ_cons, List.headD_cons]
    have h113 : (113 : Nat) = 64 + 49 := by norm_num
    rw [h113, List.take_add]
    simp [List.drop_drop]

/-- C5: `unmarshal` rejects (returns a negative value) exactly when the
input has an unknown type byte, is truncated relative to its type and
declared private length, carries a `priv_len` byte outside the legal set
for the type ({0, 64} for V0, {0, 112} for V1), or is a V1 record whose
five wire address bytes do not match the first five bytes of SHA-384 of the
public block. -/
theorem c5_unmarshal_rejects (C : Crypto) (prev : Identity) (data : List Nat) :
    decide ((Identity.unmarshal C prev data).2 < 0) = c5Rejects C data := by
  unfold Identity.unmarshal c5Rejects
  dsimp only
  simp only [List.headD_eq_head?_getD, List.head?_drop]
  by_cases h6 : data.length < 6
  · simp [h6]
  · have h6' : 6 ≤ data.length := by omega
    by_cases ht0 : data[5]?.getD 0 = 0
    · by_cases h71 : data.length < 71
      · have hx : ¬ 71 ≤ data.length := by omega
        simp [h6, h6', ht0, h71, hx]
      · have h71' : 71 ≤ data.length := by omega
        by_cases hpl64 : data[70]?.getD 0 = 64
        · by_cases h135 : data.length < 135
          · simp [h6, h6', ht0, h71, h71', hpl64, h135]
          · simp [h6, h6', ht0, h71, h71', hpl64, h135]
        · by_cases hpl0 : data[70]?.getD 0 = 0
          · simp [h6, h6', ht0, h71, h71', hpl64, hpl0]
          · simp [h6, h6', ht0, h71, h71', hpl64, hpl0]
    · by_cases ht1 : data[5]?.getD 0 = 1
      · rw [ht1]
        by_cases h121 : data.length < 121
        · have hx : ¬ 121 ≤ data.length := by omega
          simp [h6, h6', h121, hx]
        · have h121' : 121 ≤ data.length := by omega
          have h114 : 114 ≤ (data.drop 6).length := by
            rw [List.length_drop]; omega
          have hsplit : (data.drop 6).take 114 =
              data[6]?.getD 0 :: ((data.drop 7).take 64 ++ (data.drop 71).take 49) := by
            rw [take114_split _ h114, List.drop_drop, List.drop_drop,
              List.headD_eq_head?_getD, List.head?_drop]
          simp only [Identity.computeHash, Identity.v1PubBytes]
          norm_num
          rw [← hsplit]
          by_cases haddr : beBytesToNat (data.take 5) =
              beBytesToNat ((C.sha384 ((data.drop 6).take 114)).take 5)
          · by_cases hpl112 : data[120]?.getD 0 = 112
            · by_cases h233 : data.length < 233
              · simp [h6, h6', h121, h121', haddr, hpl112, h233]
              · simp [h6, h6', h121, h121', haddr, hpl112, h233]
            · by_cases hpl0 : data[120]?.getD 0 = 0
              · simp [h6, h6', h121, h121', haddr, hpl112, hpl0]
              · simp [h6, h6', h121, h121', haddr, hpl112, hpl0]
          · simp [h6, h6', h121, h121', haddr]
      · simp [h6, h6', ht0, ht1]

/-! ## Claim C10 -/

theorem finishFromString_hasPrivate (C : Crypto) (id : Identity) :
    (Identity.finishFromString C id).1.hasPrivate = id.hasPrivate := by
  unfold Identity.finishFromString
  split <;> simp [computeHash_hasPrivate]

theorem fromStringToks_short (C : Crypto) (prev : Identity)
    (toks : List (List Char)) (h : toks.length < 3) :
    (Identity.fromStringToks C prev toks).2 = false := by
  rcases toks with _ | ⟨a, _ | ⟨b, _ | ⟨c, t⟩⟩⟩
  · rfl
  · unfold Identity.fromStringToks
    dsimp only
    repeat' split
    all_goals rfl
  · unfold Identity.fromStringToks
    dsimp only
    repeat' split
    all_goals rfl
  · simp at h; omega

theorem fromStringToks_three_hasPrivate (C : Crypto) (prev : Identity)
    (t0 t1 t2 : List Char) :
    (Identity.fromStringToks C prev [t0, t1, t2]).1.hasPrivate = false := by
  unfold Identity.fromStringToks
  dsimp only
  repeat' split
  all_goals first
    | rfl
    | (rw [finishFromString_hasPrivate]
       rename_i id4 heq
       repeat' split at heq
       all_goals (cases heq; try rfl))

theorem fromStringToks_skip_short_fourth (C : Crypto) (prev : Identity)
    (t0 t1 t2 t3 : List Char) (rest : List (List Char)) (hlen : t3.length ≤ 1) :
    Identity.fromStringToks C prev (t0 :: t1 :: t2 :: t3 :: rest) =
      Identity.fromStringToks C prev [t0, t1, t2] := by
  unfold Identity.fromStringToks
  dsimp only
  repeat' split
  all_goals first
    | rfl
    | omega

/-- C10: for an input whose first three colon-separated tokens form a valid
address, type character, and public block, a fourth token of length at most
one is ignored: the parse equals the three-token parse, so it returns true
with `hasPrivate = false`; and `fromString` returns false whenever fewer
than three tokens are present. -/
theorem c10_fromString_fourth_token (C : Crypto) (prev : Identity)
    (toks : List (List Char)) (t0 t1 t2 t3 : List Char)
    (rest : List (List Char)) (hlen : t3.length ≤ 1) :
    (toks.length < 3 → (Identity.fromStringToks C prev toks).2 = false) ∧
    Identity.fromStringToks C prev (t0 :: t1 :: t2 :: t3 :: rest) =
      Identity.fromStringToks C prev [t0, t1, t2] ∧
    ((Identity.fromStringToks C prev [t0, t1, t2]).2 = true →
      (Identity.fromStringToks C prev (t0 :: t1 :: t2 :: t3 :: rest)).2 = true ∧
      (Identity.fromStringToks C prev
        (t0 :: t1 :: t2 :: t3 :: rest)).1.hasPrivate = false) := by
  refine ⟨fun h => fromStringToks_short C prev toks h,
    fromStringToks_skip_short_fourth C prev t0 t1 t2 t3 rest hlen,
    fun hsucc => ⟨?_, ?_⟩⟩
  · rw [fromStringToks_skip_short_fourth C prev t0 t1 t2 t3 rest hlen]
    exact hsucc
  · rw [fromStringToks_skip_short_fourth C prev t0 t1 t2 t3 rest hlen]
    exact fromStringToks_three_hasPrivate C prev t0 t1 t2

theorem c10_witness :
    (['x'] : List Char).length ≤ 1 ∧
    (Identity.fromStringToks trivCrypto Identity.nil [['1'], ['0']]).2 = false ∧
    (Identity.fromStringToks trivCrypto Identity.nil
        [['1'], ['0'], List.replicate 128 '0', ['x']]).2 = true ∧
    (Identity.fromStringToks trivCrypto Identity.nil
        [['1'], ['0'], List.replicate 128 '0', ['x']]).1.hasPrivate = false :=
  ⟨by decide,
   (c10_fromString_fourth_token trivCrypto Identity.nil [['1'], ['0']]
      ['1'] ['0'] (List.replicate 128 '0') ['x'] [] (by decide)).1 (by decide),
   ((c10_fromString_fourth_token trivCrypto Identity.nil [['1'], ['0']]
      ['1'] ['0'] (List.replicate 128 '0') ['x'] [] (by decide)).2.2 (by decide)).1,
   ((c10_fromString_fourth_token trivCrypto Identity.nil [['1'], ['0']]
      ['1'] ['0'] (List.replicate 128 '0') ['x'] [] (by decide)).2.2 (by decide)).2⟩

/-! ## Claim C4 -/

theorem natToBeBytes_length (n v : Nat) : (natToBeBytes n v).length = n := by
  induction n generalizing v with
  | zero => rfl
  | succ k ih => simp [natToBeBytes, ih]

theorem beBytesToNat_append_one (l : List Nat) (b : Nat) :
    beBytesToNat (l ++ [b]) = beBytesToNat l * 256 + b := by
  unfold beBytesToNat
  rw [List.foldl_append]
  rfl

theorem beBytesToNat_natToBeBytes (n v : Nat) (h : v < 256 ^ n) :
    beBytesToNat (natToBeBytes n v) = v := by
  induction n generalizing v with
  | zero =>
    simp only [pow_zero, Nat.lt_one_iff] at h
    simp [natToBeBytes, beBytesToNat, h]
  | succ k ih =>
    have hd : v / 256 < 256 ^ k := by
      apply Nat.div_lt_of_lt_mul
      rw [← pow_succ']
      exact h
    rw [natToBeBytes, beBytesToNat_append_one, ih _ hd]
    omega

theorem natToBeBytes_all_lt (n v : Nat) : ∀ x ∈ natToBeBytes n v, x < 256 := by
  induction n generalizing v with
  | zero => simp [natToBeBytes]
  | succ k ih =>
    intro x hx
    rw [natToBeBytes] at hx
    rcases List.mem_append.mp hx with h | h
    · exact ih _ x h
    · simp at h
      omega

theorem unmarshal_v0_priv (C : Crypto) (prevB : Identity) (A pub priv : List Nat)
    (hA : A.length = 5) (hpub : pub.length = 64) (hpriv : priv.length = 64) :
    Identity.unmarshal C prevB (A ++ 0 :: pub ++ 64 :: priv) =
      ({ prevB with address := beBytesToNat A,
                    type := 0,
                    pubC25519 := pub,
                    privC25519 := priv,
                    hasPrivate := true,
                    fp := ⟨beBytesToNat A, C.sha384 pub⟩ }, 135) := by
  have htake5 : (A ++ 0 :: pub ++ 64 :: priv).take 5 = A := by
    rw [show A ++ 0 :: pub ++ 64 :: priv = A ++ (0 :: pub ++ 64 :: priv) by
      simp [List.append_assoc]]
    exact List.take_left' hA
  have hlen : (A ++ 0 :: pub ++ 64 :: priv).length = 135 := by
    simp [hA, hpub, hpriv]
  have hd5 : ((A ++ 0 :: pub ++ 64 :: priv).drop 5).headD 0 = 0 := by
    rw [show A ++ 0 :: pub ++ 64 :: priv = A ++ (0 :: (pub ++ 64 :: priv)) by
      simp [List.append_assoc]]
    rw [List.drop_left' hA]
    rfl
  have hd6 : (A ++ 0 :: pub ++ 64 :: priv).drop 6 = pub ++ 64 :: priv := by
    rw [show A ++ 0 :: pub ++ 64 :: priv = (A ++ [0]) ++ (pub ++ 64 :: priv) by
      simp [List.append_assoc]]
    exact List.drop_left' (by simp [hA])
  have hpubtake : ((A ++ 0 :: pub ++ 64 :: priv).drop 6).take 64 = pub := by
    rw [hd6]
    exact List.take_left' hpub
  have hd70 : ((A ++ 0 :: pub ++ 64 :: priv).drop 70).headD 0 = 64 := by
    rw [show A ++ 0 :: pub ++ 64 :: priv = ((A ++ [0]) ++ pub) ++ (64 :: priv) by
      simp [List.append_assoc]]
    rw [List.drop_left' (by simp [hA, hpub])]
    rfl
  have hd71 : (A ++ 0 :: pub ++ 64 :: priv).drop 71 = priv := by
    rw [show A ++ 0 :: pub ++ 64 :: priv = (((A ++ [0]) ++ pub) ++ [64]) ++ priv by
      simp [List.append_assoc]]
    exact List.drop_left' (by simp [hA, hpub])
  have hprivtake : ((A ++ 0 :: pub ++ 64 :: priv).drop 71).take 64 = priv := by
    rw [hd71, ← hpriv, List.take_length]
  unfold Identity.unmarshal
  dsimp only
  rw [htake5, hd5, hd70, hpubtake, hprivtake,
    if_neg (by omega), if_pos rfl, if_neg (by omega), if_pos rfl,
    if_neg (by omega)]
  simp [Identity.computeHash]

theorem unmarshal_v0_nopriv (C : Crypto) (prevB : Identity) (A pub : List Nat)
    (hA : A.length = 5) (hpub : pub.length = 64) :
    Identity.unmarshal C prevB (A ++ 0 :: pub ++ [0]) =
      ({ prevB with address := beBytesToNat A,
                    type := 0,
                    pubC25519 := pub,
                    hasPrivate := false,
                    fp := ⟨beBytesToNat A, C.sha384 pub⟩ }, 71) := by
  have htake5 : (A ++ 0 :: pub ++ [0]).take 5 = A := by
    rw [show A ++ 0 :: pub ++ [0] = A ++ (0 :: pub ++ [0]) by
      simp [List.append_assoc]]
    exact List.take_left' hA
  have hlen : (A ++ 0 :: pub ++ [0]).length = 71 := by
    simp [hA, hpub]
  have hd5 : ((A ++ 0 :: pub ++ [0]).drop 5).headD 0 = 0 := by
    rw [show A ++ 0 :: pub ++ [0] = A ++ (0 :: (pub ++ [0])) by
      simp [List.append_assoc]]
    rw [List.drop_left' hA]
    rfl
  have hd6 : (A ++ 0 :: pub ++ [0]).drop 6 = pub ++ [0] := by
    rw [show A ++ 0 :: pub ++ [0] = (A ++ [0]) ++ (pub ++ [0]) by
      simp [List.append_assoc]]
    exact List.drop_left' (by simp [hA])
  have hpubtake : ((A ++ 0 :: pub ++ [0]).drop 6).take 64 = pub := by
    rw [hd6]
    exact List.take_left' hpub
  have hd70 : ((A ++ 0 :: pub ++ [0]).drop 70).headD 0 = 0 := by
    rw [show A ++ 0 :: pub ++ [0] = ((A ++ [0]) ++ pub) ++ [0] by
      simp [List.append_assoc]]
    rw [List.drop_left' (by simp [hA, hpub])]
    rfl
  unfold Identity.unmarshal
  dsimp only
  rw [htake5, hd5, hd70, hpubtake,
    if_neg (by omega), if_pos rfl, if_neg (by omega),
    if_neg (by omega), if_pos rfl]
  simp [Identity.computeHash]

theorem unmarshal_v1_priv (C : Crypto) (prevB : Identity)
    (A pubC pubP privC privP : List Nat) (nonce : Nat)
    (hA : A.length = 5) (hpubC : pubC.length = 64) (hpubP : pubP.length = 49)
    (hprivC : privC.length = 64) (hprivP : privP.length = 48)
    (hmatch : beBytesToNat A =
      beBytesToNat ((C.sha384 (nonce :: (pubC ++ pubP))).take 5)) :
    Identity.unmarshal C prevB
        (A ++ 1 :: (nonce :: (pubC ++ pubP)) ++ 112 :: (privC ++ privP)) =
      ({ prevB with address := beBytesToNat A,
                    type := 1,
                    pubNonce := nonce,
                    pubC25519 := pubC,
                    pubP384 := pubP,
                    privC25519 := privC,
                    privP384 := privP,
                    hasPrivate := true,
                    fp := ⟨beBytesToNat A,
                           C.sha384 (nonce :: (pubC ++ pubP))⟩ }, 233) := by
  set L := A ++ 1 :: (nonce :: (pubC ++ pubP)) ++ 112 :: (privC ++ privP) with hL
  have htake5 : L.take 5 = A := by
    rw [hL, show A ++ 1 :: (nonce :: (pubC ++ pubP)) ++ 112 :: (privC ++ privP) =
      A ++ (1 :: (nonce :: (pubC ++ pubP)) ++ 112 :: (privC ++ privP)) by
        simp [List.append_assoc]]
    exact List.take_left' hA
  have hlen : L.length = 233 := by
    rw [hL]
    simp [hA, hpubC, hpubP, hprivC, hprivP]
  have hd5 : (L.drop 5).headD 0 = 1 := by
    rw [hL, show A ++ 1 :: (nonce :: (pubC ++ pubP)) ++ 112 :: (privC ++ privP) =
      A ++ (1 :: ((nonce :: (pubC ++ pubP)) ++ 112 :: (privC ++ privP))) by
        simp [List.append_assoc]]
    rw [List.drop_left' hA]
    rfl
  have hd6 : (L.drop 6).headD 0 = nonce := by
    rw [hL, show A ++ 1 :: (nonce :: (pubC ++ pubP)) ++ 112 :: (privC ++ privP) =
      (A ++ [1]) ++ (nonce :: ((pubC ++ pubP) ++ 112 :: (privC ++ privP))) by
        simp [List.append_assoc]]
    rw [List.drop_left' (by simp [hA])]
    rfl
  have hd7 : (L.drop 7).take 64 = pubC := by
    rw [hL, show A ++ 1 :: (nonce :: (pubC ++ pubP)) ++ 112 :: (privC ++ privP) =
      ((A ++ [1]) ++ [nonce]) ++ (pubC ++ (pubP ++ 112 :: (privC ++ privP))) by
        simp [List.append_assoc]]
    rw [List.drop_left' (by simp [hA])]
    exact List.take_left' hpubC
  have hd71 : (L.drop 71).take 49 = pubP := by
    rw [hL, show A ++ 1 :: (nonce :: (pubC ++ pubP)) ++ 112 :: (privC ++ privP) =
      (((A ++ [1]) ++ [nonce]) ++ pubC) ++ (pubP ++ 112 :: (privC ++ privP)) by
        simp [List.append_assoc]]
    rw [List.drop_left' (by simp [hA, hpubC])]
    exact List.take_left' hpubP
  have hd120 : (L.drop 120).headD 0 = 112 := by
    rw [hL, show A ++ 1 :: (nonce :: (pubC ++ pubP)) ++ 112 :: (privC ++ privP) =
      ((((A ++ [1]) ++ [nonce]) ++ pubC) ++ pubP) ++ (112 :: (privC ++ privP)) by
        simp [List.append_assoc]]
    rw [List.drop_left' (by simp [hA, hpubC, hpubP])]
    rfl
  have hd121 : (L.drop 121).take 64 = privC := by
    rw [hL, show A ++ 1 :: (nonce :: (pubC ++ pubP)) ++ 112 :: (privC ++ privP) =
      (((((A ++ [1]) ++ [nonce]) ++ pubC) ++ pubP) ++ [112]) ++ (privC ++ privP) by
        simp [List.append_assoc]]
    rw [List.drop_left' (by simp [hA, hpubC, hpubP])]
    exact List.take_left' hprivC
  have hd185 : (L.drop 185).take 48 = privP := by
    rw [hL, show A ++ 1 :: (nonce :: (pubC ++ pubP)) ++ 112 :: (privC ++ privP) =
      ((((((A ++ [1]) ++ [nonce]) ++ pubC) ++ pubP) ++ [112]) ++ privC) ++ privP by
        simp [List.append_assoc]]
    rw [List.drop_left' (by simp [hA, hpubC, hpubP, hprivC]), ← hprivP,
      List.take_length]
  unfold Identity.unmarshal
  dsimp only
  rw [htake5, hd5, hd6, hd7, hd71, hd120, hd121, hd185,
    if_neg (by omega), if_neg (by omega), if_pos rfl, if_neg (by omega)]
  rw [computeHash_address]
  rw [computeHash_fp_type1 _ _ rfl]
  dsimp only
  rw [if_neg (by simp [hmatch, Identity.v1PubBytes]), if_pos rfl, if_neg (by omega)]
  simp [Identity.computeHash, Identity.v1PubBytes]

theorem unmarshal_v1_nopriv (C : Crypto) (prevB : Identity)
    (A pubC pubP : List Nat) (nonce : Nat)
    (hA : A.length = 5) (hpubC : pubC.length = 64) (hpubP : pubP.length = 49)
    (hmatch : beBytesToNat A =
      beBytesToNat ((C.sha384 (nonce :: (pubC ++ pubP))).take 5)) :
    Identity.unmarshal C prevB (A ++ 1 :: (nonce :: (pubC ++ pubP)) ++ [0]) =
      ({ prevB with address := beBytesToNat A,
                    type := 1,
                    pubNonce := nonce,
                    pubC25519 := pubC,
                    pubP384 := pubP,
                    hasPrivate := false,
                    fp := ⟨beBytesToNat A,
                           C.sha384 (nonce :: (pubC ++ pubP))⟩ }, 121) := by
  set L := A ++ 1 :: (nonce :: (pubC ++ pubP)) ++ [0] with hL
  have htake5 : L.take 5 = A := by
    rw [hL, show A ++ 1 :: (nonce :: (pubC ++ pubP)) ++ [0] =
      A ++ (1 :: (nonce :: (pubC ++ pubP)) ++ [0]) by simp [List.append_assoc]]
    exact List.take_left' hA
  have hlen : L.length = 121 := by
    rw [hL]
    simp [hA, hpubC, hpubP]
  have hd5 : (L.drop 5).headD 0 = 1 := by
    rw [hL, show A ++ 1 :: (nonce :: (pubC ++ pubP)) ++ [0] =
      A ++ (1 :: ((nonce :: (pubC ++ pubP)) ++ [0])) by simp [List.append_assoc]]
    rw [List.drop_left' hA]
    rfl
  have hd6 : (L.drop 6).headD 0 = nonce := by
    rw [hL, show A ++ 1 :: (nonce :: (pubC ++ pubP)) ++ [0] =
      (A ++ [1]) ++ (nonce :: ((pubC ++ pubP) ++ [0])) by simp [List.append_assoc]]
    rw [List.drop_left' (by simp [hA])]
    rfl
  have hd7 : (L.drop 7).take 64 = pubC := by
    rw [hL, show A ++ 1 :: (nonce :: (pubC ++ pubP)) ++ [0] =
      ((A ++ [1]) ++ [nonce]) ++ (pubC ++ (pubP ++ [0])) by simp [List.append_assoc]]
    rw [List.drop_left' (by simp [hA])]
    exact List.take_left' hpubC
  have hd71 : (L.drop 71).take 49 = pubP := by
    rw [hL, show A ++ 1 :: (nonce :: (pubC ++ pubP)) ++ [0] =
      (((A ++ [1]) ++ [nonce]) ++ pubC) ++ (pubP ++ [0]) by simp [List.append_assoc]]
    rw [List.drop_left' (by simp [hA, hpubC])]
    exact List.take_left' hpubP
  have hd120 : (L.drop 120).headD 0 = 0 := by
    rw [hL, show A ++ 1 :: (nonce :: (pubC ++ pubP)) ++ [0] =
      ((((A ++ [1]) ++ [nonce]) ++ pubC) ++ pubP) ++ [0] by simp [List.append_assoc]]
    rw [List.drop_left' (by simp [hA, hpubC, hpubP])]
    rfl
  unfold Identity.unmarshal
  dsimp only
  rw [htake5, hd5, hd6, hd7, hd71, hd120,
    if_neg (by omega), if_neg (by omega), if_pos rfl, if_neg (by omega)]
  rw [computeHash_address]
  rw [computeHash_fp_type1 _ _ rfl]
  dsimp only
  rw [if_neg (by simp [hmatch, Identity.v1PubBytes]), if_neg (by omega),
    if_pos rfl]
  simp [Identity.computeHash, Identity.v1PubBytes]

theorem marshal_unmarshal_roundTrip (C : Crypto) (I prevB : Identity) (b : Bool)
    (hwf : wellFormed C I) (m : List Nat)
    (hm : Identity.marshal I b = some m) :
    (Identity.unmarshal C prevB m).2 = Int.ofNat m.length ∧
    roundTripEq b (Identity.unmarshal C prevB m).1 I = true := by
  obtain ⟨haddrlt, -, -, hpubl, -, hprivl, -, hfpa, hty⟩ := hwf
  have h2565 : I.address < 256 ^ 5 := by
    have h : (256 : Nat) ^ 5 = 2 ^ 40 := by norm_num
    omega
  have hA : (natToBeBytes 5 I.address).length = 5 := natToBeBytes_length 5 I.address
  have haddr : beBytesToNat (natToBeBytes 5 I.address) = I.address :=
    beBytesToNat_natToBeBytes 5 _ h2565
  by_cases ht0 : I.type = 0
  · rw [if_pos ht0] at hty
    have hfp : I.fp = ⟨I.address, C.sha384 I.pubC25519⟩ := by
      rw [← hfpa, ← hty]
    unfold Identity.marshal at hm
    rw [if_pos ht0] at hm
    by_cases hbp : (b && I.hasPrivate) = true
    · rw [if_pos hbp, Option.some_inj] at hm
      subst hm
      rw [unmarshal_v0_priv C prevB _ _ _ hA hpubl hprivl]
      obtain ⟨hb, hP⟩ := Bool.and_eq_true_iff.mp hbp
      subst hb
      constructor
      · simp [hA, hpubl, hprivl]
      · simp [roundTripEq, Identity.eqFull, Identity.eqPub, haddr, ht0, hP, hfp]
    · rw [if_neg hbp, Option.some_inj] at hm
      subst hm
      rw [unmarshal_v0_nopriv C prevB _ _ hA hpubl]
      constructor
      · simp [hA, hpubl]
      · cases b with
        | false =>
          simp [roundTripEq, Identity.eqPub, haddr, ht0, hfp]
        | true =>
          simp only [Bool.true_and] at hbp
          rw [Bool.not_eq_true] at hbp
          simp [roundTripEq, Identity.eqFull, Identity.eqPub, haddr, ht0, hfp, hbp]
  · have ht1 : I.type = 1 := by
      by_cases h : I.type = 1
      · exact h
      · rw [if_neg ht0, if_neg h] at hty
        exact absurd hty (by simp)
    rw [if_neg ht0, if_pos ht1] at hty
    obtain ⟨-, hpubPl, -, hprivPl, -, hty1, hmatch⟩ := hty
    simp only [Identity.v1PubBytes] at hty1
    have hfp : I.fp = ⟨I.address, C.sha384 (I.pubNonce :: (I.pubC25519 ++ I.pubP384))⟩ := by
      rw [← hfpa, ← hty1]
    have hmatch' : beBytesToNat (natToBeBytes 5 I.address) =
        beBytesToNat ((C.sha384 (I.pubNonce :: (I.pubC25519 ++ I.pubP384))).take 5) := by
      rw [haddr, hmatch, hfp]
    unfold Identity.marshal at hm
    rw [if_neg ht0, if_pos ht1] at hm
    simp only [Identity.v1PubBytes] at hm
    by_cases hbp : (b && I.hasPrivate) = true
    · rw [if_pos hbp, Option.some_inj] at hm
      subst hm
      rw [unmarshal_v1_priv C prevB _ _ _ _ _ _ hA hpubl hpubPl hprivl hprivPl hmatch']
      obtain ⟨hb, hP⟩ := Bool.and_eq_true_iff.mp hbp
      subst hb
      constructor
      · simp [hA, hpubl, hpubPl, hprivl, hprivPl]
      · simp [roundTripEq, Identity.eqFull, Identity.eqPub, haddr, ht1, hP, hfp]
    · rw [if_neg hbp, Option.some_inj] at hm
      subst hm
      rw [unmarshal_v1_nopriv C prevB _ _ _ _ hA hpubl hpubPl hmatch']
      constructor
      · simp [hA, hpubl, hpubPl]
      · cases b with
        | false =>
          simp [roundTripEq, Identity.eqPub, haddr, ht1, hfp]
        | true =>
          simp only [Bool.true_and] at hbp
          rw [Bool.not_eq_true] at hbp
          simp [roundTripEq, Identity.eqFull, Identity.eqPub, haddr, ht1, hfp, hbp]

theorem hexVal_hexDigitChar : ∀ d < 16, hexVal (hexDigitChar d) = some d := by
  decide

theorem hexDigitChar_ne_colon : ∀ d < 16, hexDigitChar d ≠ ':' := by
  decide

theorem unhex_hexChars (bs : List Nat) (hb : ∀ x ∈ bs, x < 256) :
    unhex (hexChars bs) = some bs := by
  induction bs with
  | nil => rfl
  | cons b rest ih =>
    have hblt : b < 256 := hb b (by simp)
    have h1 : hexVal (hexDigitChar (b / 16)) = some (b / 16) :=
      hexVal_hexDigitChar _ (by omega)
    have h2 : hexVal (hexDigitChar (b % 16)) = some (b % 16) :=
      hexVal_hexDigitChar _ (by omega)
    have ih2 := ih (fun x hx => hb x (by simp [hx]))
    show unhex (hexDigitChar (b / 16) :: hexDigitChar (b % 16) :: hexChars rest) = _
    rw [unhex, h1, h2, ih2]
    dsimp only
    have : b / 16 * 16 + b % 16 = b := by omega
    rw [this]

theorem hexChars_length (bs : List Nat) : (hexChars bs).length = 2 * bs.length := by
  induction bs with
  | nil => rfl
  | cons b rest ih =>
    show (hexDigitChar (b / 16) :: hexDigitChar (b % 16) :: hexChars rest).length = _
    simp [ih]
    omega

theorem colon_notin_hexChars (bs : List Nat) (hb : ∀ x ∈ bs, x < 256) :
    ∀ c ∈ hexChars bs, c ≠ ':' := by
  induction bs with
  | nil => simp [hexChars]
  | cons b rest ih =>
    intro c hc
    have hblt : b < 256 := hb b (by simp)
    rcases List.mem_cons.mp hc with rfl | hc2
    · exact hexDigitChar_ne_colon _ (by omega)
    · rcases List.mem_cons.mp hc2 with rfl | hc3
      · exact hexDigitChar_ne_colon _ (by omega)
      · exact ih (fun x hx => hb x (by simp [hx])) c hc3

theorem foldl256_mod_congr : ∀ (bs : List Nat) (y : Nat),
    List.foldl (fun a b => a * 256 + b) (y % 2 ^ 64) bs % 2 ^ 64 =
      List.foldl (fun a b => a * 256 + b) y bs % 2 ^ 64 := by
  intro bs
  induction bs with
  | nil => intro y; exact Nat.mod_mod_of_dvd y dvd_rfl
  | cons b rest ih =>
    intro y
    rw [List.foldl_cons, List.foldl_cons]
    have e1 : (y % 2 ^ 64 * 256 + b) % 2 ^ 64 = (y * 256 + b) % 2 ^ 64 :=
      ((Nat.mod_modEq y (2 ^ 64)).mul_right 256).add_right b
    calc List.foldl (fun a b => a * 256 + b) (y % 2 ^ 64 * 256 + b) rest % 2 ^ 64
        = List.foldl (fun a b => a * 256 + b) ((y % 2 ^ 64 * 256 + b) % 2 ^ 64) rest % 2 ^ 64 :=
          (ih _).symm
      _ = List.foldl (fun a b => a * 256 + b) ((y * 256 + b) % 2 ^ 64) rest % 2 ^ 64 := by
          rw [e1]
      _ = List.foldl (fun a b => a * 256 + b) (y * 256 + b) rest % 2 ^ 64 := ih _

theorem hexAux_hexChars : ∀ (bs : List Nat), (∀ x ∈ bs, x < 256) →
    ∀ acc, acc < 2 ^ 64 →
    hexStrToU64Aux (hexChars bs) acc =
      List.foldl (fun a b => a * 256 + b) acc bs % 2 ^ 64 := by
  intro bs
  induction bs with
  | nil =>
    intro _ acc hacc
    show acc = acc % 2 ^ 64
    exact (Nat.mod_eq_of_lt hacc).symm
  | cons b rest ih =>
    intro hb acc hacc
    have hblt : b < 256 := hb b (by simp)
    show hexStrToU64Aux
      (hexDigitChar (b / 16) :: hexDigitChar (b % 16) :: hexChars rest) acc = _
    rw [hexStrToU64Aux, hexVal_hexDigitChar _ (by omega)]
    dsimp only
    rw [hexStrToU64Aux, hexVal_hexDigitChar _ (by omega)]
    dsimp only
    rw [ih (fun x hx => hb x (by simp [hx])) _ (Nat.mod_lt _ (by positivity))]
    have e1 : ((acc * 16 + b / 16) % 2 ^ 64 * 16 + b % 16) % 2 ^ 64 =
        ((acc * 16 + b / 16) * 16 + b % 16) % 2 ^ 64 :=
      ((Nat.mod_modEq _ (2 ^ 64)).mul_right 16).add_right _
    have e2 : (acc * 16 + b / 16) * 16 + b % 16 = acc * 256 + b := by
      have : b / 16 * 16 + b % 16 = b := by omega
      ring_nf
      omega
    rw [e1, e2, foldl256_mod_congr, List.foldl_cons]

theorem addr_text_roundtrip (a : Nat) (ha : a < 2 ^ 40) :
    addrOfU64 (hexStrToU64 (addrHexChars a)) = a := by
  have h5 : a < 256 ^ 5 := by
    have h : (256 : Nat) ^ 5 = 2 ^ 40 := by norm_num
    omega
  have h64 : a < 2 ^ 64 := lt_trans ha (by norm_num)
  unfold addrHexChars hexStrToU64 addrOfU64
  rw [hexAux_hexChars _ (natToBeBytes_all_lt 5 a) 0 (by positivity)]
  show beBytesToNat (natToBeBytes 5 a) % 2 ^ 64 % 2 ^ 40 = a
  rw [beBytesToNat_natToBeBytes 5 a h5, Nat.mod_eq_of_lt h64,
    Nat.mod_eq_of_lt ha]

theorem stokAux_append_colon : ∀ (t : List Char), (∀ c ∈ t, c ≠ ':') →
    ∀ (acc rest : List Char), (acc ≠ [] ∨ t ≠ []) →
    stokAux (t ++ ':' :: rest) acc = (acc.reverse ++ t) :: stokAux rest [] := by
  intro t
  induction t with
  | nil =>
    intro _ acc rest hne
    have hacc : acc ≠ [] := by
      rcases hne with h | h
      · exact h
      · exact absurd rfl h
    show stokAux (':' :: rest) acc = _
    rw [stokAux, if_pos rfl, if_neg (by simpa using hacc)]
    simp
  | cons c t' ih =>
    intro hcf acc rest hne
    have hc : c ≠ ':' := hcf c (by simp)
    show stokAux (c :: (t' ++ ':' :: rest)) acc = _
    rw [stokAux, if_neg hc]
    rw [ih (fun x hx => hcf x (by simp [hx])) (c :: acc) rest (Or.inl (by simp))]
    simp

theorem stokAux_colonfree : ∀ (t : List Char), (∀ c ∈ t, c ≠ ':') →
    ∀ (acc : List Char), (acc ≠ [] ∨ t ≠ []) →
    stokAux t acc = [acc.reverse ++ t] := by
  intro t
  induction t with
  | nil =>
    intro _ acc hne
    have hacc : acc ≠ [] := by
      rcases hne with h | h
      · exact h
      · exact absurd rfl h
    show stokAux [] acc = _
    rw [stokAux, if_neg (by simpa using hacc)]
    simp
  | cons c t' ih =>
    intro hcf acc hne
    have hc : c ≠ ':' := hcf c (by simp)
    show stokAux (c :: t') acc = _
    rw [stokAux, if_neg hc]
    rw [ih (fun x hx => hcf x (by simp [hx])) (c :: acc) (Or.inl (by simp))]
    simp

theorem stok_token_append (t rest : List Char) (hne : t ≠ [])
    (hcf : ∀ c ∈ t, c ≠ ':') :
    stok (t ++ ':' :: rest) = t :: stok rest := by
  unfold stok
  rw [stokAux_append_colon t hcf [] rest (Or.inr hne)]
  simp

theorem stok_token (t : List Char) (hne : t ≠ []) (hcf : ∀ c ∈ t, c ≠ ':') :
    stok t = [t] := by
  unfold stok
  rw [stokAux_colonfree t hcf [] (Or.inr hne)]
  simp

theorem fromStringToks_v0_priv (C : Crypto) (prev : Identity) (a : Nat)
    (pub priv : List Nat)
    (ha : a < 2 ^ 40) (hares : isReserved a = false)
    (hpub : pub.length = 64) (hpubb : ∀ x ∈ pub, x < 256)
    (hpriv : priv.length = 64) (hprivb : ∀ x ∈ priv, x < 256) :
    Identity.fromStringToks C prev
        [addrHexChars a, ['0'], hexChars pub, hexChars priv] =
      ({ prev with address := a,
                   type := 0,
                   pubC25519 := pub,
                   privC25519 := priv,
                   hasPrivate := true,
                   fp := ⟨a, C.sha384 pub⟩ }, true) := by
  unfold Identity.fromStringToks
  try dsimp only
  rw [addr_text_roundtrip a ha, if_neg (show ¬isReserved a = true by simp [hares]),
    if_neg (show ¬((['0'] : List Char) ≠ ['0'] ∧ (['0'] : List Char) ≠ ['1']) by simp),
    if_pos (rfl : (['0'] : List Char) = ['0']),
    if_pos (rfl : (0 : Nat) = 0),
    unhex_hexChars pub hpubb]
  try dsimp only
  rw [if_pos hpub]
  try dsimp only
  rw [if_pos (show (hexChars priv).length > 1 by rw [hexChars_length, hpriv]; norm_num),
    if_pos (rfl : (0 : Nat) = 0), unhex_hexChars priv hprivb]
  try dsimp only
  rw [if_pos hpriv]
  try dsimp only
  unfold Identity.finishFromString
  rw [if_neg (by simp [computeHash_type])]
  simp [Identity.computeHash]

theorem fromStringToks_v0_nopriv (C : Crypto) (prev : Identity) (a : Nat)
    (pub : List Nat)
    (ha : a < 2 ^ 40) (hares : isReserved a = false)
    (hpub : pub.length = 64) (hpubb : ∀ x ∈ pub, x < 256) :
    Identity.fromStringToks C prev [addrHexChars a, ['0'], hexChars pub] =
      ({ prev with address := a,
                   type := 0,
                   pubC25519 := pub,
                   hasPrivate := false,
                   fp := ⟨a, C.sha384 pub⟩ }, true) := by
  unfold Identity.fromStringToks
  try dsimp only
  rw [addr_text_roundtrip a ha, if_neg (show ¬isReserved a = true by simp [hares]),
    if_neg (show ¬((['0'] : List Char) ≠ ['0'] ∧ (['0'] : List Char) ≠ ['1']) by simp),
    if_pos (rfl : (['0'] : List Char) = ['0']),
    if_pos (rfl : (0 : Nat) = 0),
    unhex_hexChars pub hpubb]
  try dsimp only
  rw [if_pos hpub]
  try dsimp only
  unfold Identity.finishFromString
  rw [if_neg (by simp [computeHash_type])]
  simp [Identity.computeHash]

theorem fromStringToks_v1_priv (C : Crypto) (prev : Identity) (a nonce : Nat)
    (pubC pubP privC privP : List Nat) (t2 t3 : List Char)
    (ha : a < 2 ^ 40) (hares : isReserved a = false)
    (hpubC : pubC.length = 64) (hpubP : pubP.length = 49)
    (hprivC : privC.length = 64) (hprivP : privP.length = 48)
    (hb32pub : C.b32d t2 = some (nonce :: (pubC ++ pubP)))
    (hb32priv : C.b32d t3 = some (privC ++ privP))
    (ht3 : t3.length > 1)
    (hmatch : a = beBytesToNat ((C.sha384 (nonce :: (pubC ++ pubP))).take 5)) :
    Identity.fromStringToks C prev [addrHexChars a, ['1'], t2, t3] =
      ({ prev with address := a,
                   type := 1,
                   pubNonce := nonce,
                   pubC25519 := pubC,
                   pubP384 := pubP,
                   privC25519 := privC,
                   privP384 := privP,
                   hasPrivate := true,
                   fp := ⟨a, C.sha384 (nonce :: (pubC ++ pubP))⟩ }, true) := by
  have hf2 : ((nonce :: (pubC ++ pubP)).drop 1).take 64 = pubC := by
    show (pubC ++ pubP).take 64 = pubC
    exact List.take_left' hpubC
  have hf3 : ((nonce :: (pubC ++ pubP)).drop 65).take 49 = pubP := by
    show ((pubC ++ pubP).drop 64).take 49 = pubP
    rw [List.drop_left' hpubC, ← hpubP, List.take_length]
  have hf4 : (privC ++ privP).take 64 = privC := List.take_left' hprivC
  have hf5 : ((privC ++ privP).drop 64).take 48 = privP := by
    rw [List.drop_left' hprivC, ← hprivP, List.take_length]
  unfold Identity.fromStringToks
  dsimp only
  rw [addr_text_roundtrip a ha, if_neg (show ¬isReserved a = true by simp [hares]),
    if_neg (show ¬((['1'] : List Char) ≠ ['0'] ∧ (['1'] : List Char) ≠ ['1']) by simp),
    if_neg (show ¬(['1'] : List Char) = ['0'] by simp),
    if_neg (show ¬(1 : Nat) = 0 by omega),
    hb32pub]
  try dsimp only
  rw [if_pos (show (nonce :: (pubC ++ pubP)).length = 114 by simp [hpubC, hpubP]),
    show (nonce :: (pubC ++ pubP)).headD 0 = nonce from rfl, hf2, hf3]
  try dsimp only
  rw [if_pos ht3, if_neg (show ¬(1 : Nat) = 0 by omega), hb32priv]
  try dsimp only
  rw [if_pos (show (privC ++ privP).length = 112 by simp [hprivC, hprivP]), hf4, hf5]
  try dsimp only
  unfold Identity.finishFromString
  rw [if_neg (by
    simp [computeHash_type, computeHash_address, computeHash_fp_type1,
      Identity.v1PubBytes, hmatch])]
  simp [Identity.computeHash, Identity.v1PubBytes]

theorem fromStringToks_v1_nopriv (C : Crypto) (prev : Identity) (a nonce : Nat)
    (pubC pubP : List Nat) (t2 : List Char)
    (ha : a < 2 ^ 40) (hares : isReserved a = false)
    (hpubC : pubC.length = 64) (hpubP : pubP.length = 49)
    (hb32pub : C.b32d t2 = some (nonce :: (pubC ++ pubP)))
    (hmatch : a = beBytesToNat ((C.sha384 (nonce :: (pubC ++ pubP))).take 5)) :
    Identity.fromStringToks C prev [addrHexChars a, ['1'], t2] =
      ({ prev with address := a,
                   type := 1,
                   pubNonce := nonce,
                   pubC25519 := pubC,
                   pubP384 := pubP,
                   hasPrivate := false,
                   fp := ⟨a, C.sha384 (nonce :: (pubC ++ pubP))⟩ }, true) := by
  have hf2 : ((nonce :: (pubC ++ pubP)).drop 1).take 64 = pubC := by
    show (pubC ++ pubP).take 64 = pubC
    exact List.take_left' hpubC
  have hf3 : ((nonce :: (pubC ++ pubP)).drop 65).take 49 = pubP := by
    show ((pubC ++ pubP).drop 64).take 49 = pubP
    rw [List.drop_left' hpubC, ← hpubP, List.take_length]
  unfold Identity.fromStringToks
  dsimp only
  rw [addr_text_roundtrip a ha, if_neg (show ¬isReserved a = true by simp [hares]),
    if_neg (show ¬((['1'] : List Char) ≠ ['0'] ∧ (['1'] : List Char) ≠ ['1']) by simp),
    if_neg (show ¬(['1'] : List Char) = ['0'] by simp),
    if_neg (show ¬(1 : Nat) = 0 by omega),
    hb32pub]
  try dsimp only
  rw [if_pos (show (nonce :: (pubC ++ pubP)).length = 114 by simp [hpubC, hpubP]),
    show (nonce :: (pubC ++ pubP)).headD 0 = nonce from rfl, hf2, hf3]
  try dsimp only
  unfold Identity.finishFromString
  rw [if_neg (by
    simp [computeHash_type, computeHash_address, computeHash_fp_type1,
      Identity.v1PubBytes, hmatch])]
  simp [Identity.computeHash, Identity.v1PubBytes]

theorem hexChars_ne_nil (bs : List Nat) (h : bs.length = 64) :
    hexChars bs ≠ [] := by
  intro he
  have hl := hexChars_length bs
  rw [he, h] at hl
  simp at hl

theorem toString_fromString_roundTrip (C : Crypto) (I prevT : Identity) (b : Bool)
    (hwf : wellFormed C I)
    (hb32pub : C.b32d (C.b32e I.v1PubBytes) = some I.v1PubBytes)
    (hb32priv : C.b32d (C.b32e I.v1PrivBytes) = some I.v1PrivBytes)
    (hb32pubne : C.b32e I.v1PubBytes ≠ [])
    (hb32pubcf : ∀ c ∈ C.b32e I.v1PubBytes, c ≠ ':')
    (hb32privlen : 1 < (C.b32e I.v1PrivBytes).length)
    (hb32privcf : ∀ c ∈ C.b32e I.v1PrivBytes, c ≠ ':') :
    (Identity.fromString C prevT (Identity.toStringChars C I b)).2 = true ∧
    roundTripEq b (Identity.fromString C prevT (Identity.toStringChars C I b)).1 I = true := by
  obtain ⟨haddrlt, -, hares, hpubl, hpubb, hprivl, hprivb, hfpa, hty⟩ := hwf
  have haNE : addrHexChars I.address ≠ [] := by
    intro h
    have hl : (addrHexChars I.address).length = 10 := by
      unfold addrHexChars
      rw [hexChars_length, natToBeBytes_length]
    rw [h] at hl
    simp at hl
  have haCF : ∀ c ∈ addrHexChars I.address, c ≠ ':' :=
    colon_notin_hexChars _ (natToBeBytes_all_lt 5 I.address)
  by_cases ht0 : I.type = 0
  · rw [if_pos ht0] at hty
    have hfp : I.fp = ⟨I.address, C.sha384 I.pubC25519⟩ := by
      rw [← hfpa, ← hty]
    unfold Identity.toStringChars
    rw [if_pos ht0]
    unfold Identity.fromString
    by_cases hbp : (b && I.hasPrivate) = true
    · rw [if_pos hbp]
      rw [stok_token_append _ _ haNE haCF]
      rw [show ('0' :: ':' :: (hexChars I.pubC25519 ++ ':' :: hexChars I.privC25519))
          = ['0'] ++ ':' :: (hexChars I.pubC25519 ++ ':' :: hexChars I.privC25519) from rfl]
      rw [stok_token_append ['0'] _ (by simp) (by simp)]
      rw [stok_token_append _ _ (hexChars_ne_nil _ hpubl) (colon_notin_hexChars _ hpubb)]
      rw [stok_token _ (hexChars_ne_nil _ hprivl) (colon_notin_hexChars _ hprivb)]
      rw [fromStringToks_v0_priv C prevT I.address I.pubC25519 I.privC25519
        haddrlt hares hpubl hpubb hprivl hprivb]
      obtain ⟨hb, hP⟩ := Bool.and_eq_true_iff.mp hbp
      subst hb
      exact ⟨rfl, by simp [roundTripEq, Identity.eqFull, Identity.eqPub, ht0, hP, hfp]⟩
    · rw [if_neg hbp, List.append_nil]
      rw [stok_token_append _ _ haNE haCF]
      rw [show ('0' :: ':' :: hexChars I.pubC25519)
          = ['0'] ++ ':' :: hexChars I.pubC25519 from rfl]
      rw [stok_token_append ['0'] _ (by simp) (by simp)]
      rw [stok_token _ (hexChars_ne_nil _ hpubl) (colon_notin_hexChars _ hpubb)]
      rw [fromStringToks_v0_nopriv C prevT I.address I.pubC25519
        haddrlt hares hpubl hpubb]
      refine ⟨rfl, ?_⟩
      cases b with
      | false =>
        simp [roundTripEq, Identity.eqPub, ht0, hfp]
      | true =>
        simp only [Bool.true_and] at hbp
        rw [Bool.not_eq_true] at hbp
        simp [roundTripEq, Identity.eqFull, Identity.eqPub, ht0, hfp, hbp]
  · have ht1 : I.type = 1 := by
      by_cases h : I.type = 1
      · exact h
      · rw [if_neg ht0, if_neg h] at hty
        exact absurd hty (by simp)
    rw [if_neg ht0, if_pos ht1] at hty
    obtain ⟨-, hpubPl, -, hprivPl, -, hty1, hmatch⟩ := hty
    simp only [Identity.v1PubBytes] at hty1 hb32pub hb32pubne hb32pubcf
    simp only [Identity.v1PrivBytes] at hb32priv hb32privlen hb32privcf
    have hfp : I.fp = ⟨I.address, C.sha384 (I.pubNonce :: (I.pubC25519 ++ I.pubP384))⟩ := by
      rw [← hfpa, ← hty1]
    have hmatch' : I.address =
        beBytesToNat ((C.sha384 (I.pubNonce :: (I.pubC25519 ++ I.pubP384))).take 5) := by
      rw [hmatch, hfp]
    unfold Identity.toStringChars
    rw [if_neg ht0, if_pos ht1]
    unfold Identity.fromString
    simp only [Identity.v1PubBytes, Identity.v1PrivBytes]
    by_cases hbp : (b && I.hasPrivate) = true
    · rw [if_pos hbp]
      rw [stok_token_append _ _ haNE haCF]
      rw [show ('1' :: ':' :: (C.b32e (I.pubNonce :: (I.pubC25519 ++ I.pubP384)) ++
            ':' :: C.b32e (I.privC25519 ++ I.privP384)))
          = ['1'] ++ ':' :: (C.b32e (I.pubNonce :: (I.pubC25519 ++ I.pubP384)) ++
            ':' :: C.b32e (I.privC25519 ++ I.privP384)) from rfl]
      rw [stok_token_append ['1'] _ (by simp) (by simp)]
      rw [stok_token_append _ _ hb32pubne hb32pubcf]
      rw [stok_token _ (by intro h; rw [h] at hb32privlen; simp at hb32privlen) hb32privcf]
      rw [fromStringToks_v1_priv C prevT I.address I.pubNonce I.pubC25519 I.pubP384
        I.privC25519 I.privP384 _ _ haddrlt hares hpubl hpubPl hprivl hprivPl
        hb32pub hb32priv hb32privlen hmatch']
      obtain ⟨hb, hP⟩ := Bool.and_eq_true_iff.mp hbp
      subst hb
      exact ⟨rfl, by simp [roundTripEq, Identity.eqFull, Identity.eqPub, ht1, hP, hfp]⟩
    · rw [if_neg hbp, List.append_nil]
      rw [stok_token_append _ _ haNE haCF]
      rw [show ('1' :: ':' :: C.b32e (I.pubNonce :: (I.pubC25519 ++ I.pubP384)))
          = ['1'] ++ ':' :: C.b32e (I.pubNonce :: (I.pubC25519 ++ I.pubP384)) from rfl]
      rw [stok_token_append ['1'] _ (by simp) (by simp)]
      rw [stok_token _ hb32pubne hb32pubcf]
      rw [fromStringToks_v1_nopriv C prevT I.address I.pubNonce I.pubC25519 I.pubP384
        _ haddrlt hares hpubl hpubPl hb32pub hmatch']
      refine ⟨rfl, ?_⟩
      cases b with
      | false =>
        simp [roundTripEq, Identity.eqPub, ht1, hfp]
      | true =>
        simp only [Bool.true_and] at hbp
        rw [Bool.not_eq_true] at hbp
        simp [roundTripEq, Identity.eqFull, Identity.eqPub, ht1, hfp, hbp]

/-- C4: for every validly generated identity `I` and each `b`, unmarshalling
the image of `marshal(I, includePrivate := b)` succeeds, consumes the whole
image, and yields an identity equal to `I` — fully equal when `b` is true,
equal except for the private half when `b` is false; the same round trip
holds for `toString` followed by `fromString`.  The base32 codec is external;
the theorem assumes its round-trip and token-shape laws on the two encoded
blocks. -/
theorem c4_serialization_roundTrip (C : Crypto) (I prevB prevT : Identity)
    (b : Bool) (hwf : wellFormed C I)
    (hb32pub : C.b32d (C.b32e I.v1PubBytes) = some I.v1PubBytes)
    (hb32priv : C.b32d (C.b32e I.v1PrivBytes) = some I.v1PrivBytes)
    (hb32pubne : C.b32e I.v1PubBytes ≠ [])
    (hb32pubcf : ∀ c ∈ C.b32e I.v1PubBytes, c ≠ ':')
    (hb32privlen : 1 < (C.b32e I.v1PrivBytes).length)
    (hb32privcf : ∀ c ∈ C.b32e I.v1PrivBytes, c ≠ ':') :
    (∀ m, Identity.marshal I b = some m →
      (Identity.unmarshal C prevB m).2 = Int.ofNat m.length ∧
      roundTripEq b (Identity.unmarshal C prevB m).1 I = true) ∧
    (Identity.fromString C prevT (Identity.toStringChars C I b)).2 = true ∧
    roundTripEq b (Identity.fromString C prevT (Identity.toStringChars C I b)).1 I = true :=
  ⟨fun m hm => marshal_unmarshal_roundTrip C I prevB b hwf m hm,
   toString_fromString_roundTrip C I prevT b hwf hb32pub hb32priv hb32pubne
     hb32pubcf hb32privlen hb32privcf⟩

/-- A concrete well-formed V1 identity holding a private half, used to
exercise the round-trip theorem. -/
def c4WitnessId : Identity :=
  { address := beBytesToNat [114, 115, 116, 117, 118],
    type := 1, pubNonce := 7,
    pubC25519 := List.replicate 64 1, pubP384 := List.replicate 49 2,
    privC25519 := List.replicate 64 3, privP384 := List.replicate 48 4,
    hasPrivate := true,
    fp := ⟨beBytesToNat [114, 115, 116, 117, 118],
           trivCrypto.sha384 (7 :: (List.replicate 64 1 ++ List.replicate 49 2))⟩ }

/-- The wire image of the witness identity with its private half. -/
def c4WitnessBytes : List Nat := (Identity.marshal c4WitnessId true).getD []

theorem c4_roundTrip_witness :
    wellFormed trivCrypto c4WitnessId ∧
    Identity.marshal c4WitnessId true = some c4WitnessBytes ∧
    (Identity.unmarshal trivCrypto Identity.nil c4WitnessBytes).2 =
      Int.ofNat c4WitnessBytes.length ∧
    roundTripEq true
      (Identity.unmarshal trivCrypto Identity.nil c4WitnessBytes).1 c4WitnessId = true ∧
    (Identity.fromString trivCrypto Identity.nil
      (Identity.toStringChars trivCrypto c4WitnessId true)).2 = true ∧
    roundTripEq true
      (Identity.fromString trivCrypto Identity.nil
        (Identity.toStringChars trivCrypto c4WitnessId true)).1 c4WitnessId = true :=
  have h := c4_serialization_roundTrip trivCrypto c4WitnessId Identity.nil
    Identity.nil true (by decide) (by decide) (by decide) (by decide)
    (by decide) (by decide) (by decide)
  ⟨by decide, rfl, (h.1 c4WitnessBytes rfl).1, (h.1 c4WitnessBytes rfl).2,
   h.2.1, h.2.2⟩

end ZeroTier
